import Mathlib

/-!
# m28-json-to-excel-resultados: the conversion pipeline of `src/App.jsx`

A shallow embedding of the three closures of `App` that carry the business
rule: `processJsonData` (lines 83-102), `generateExcel` (lines 40-81) and the
`try` block of `handleSubmit` (lines 126-134).

Modelling decisions, all visible in the definitions below:

* JavaScript values are the inductive type `JsVal`; numbers are integers
  (fractions, `NaN` and the infinities are outside the model, `-Infinity` of
  `Math.max()` is `none`). Strings are sequences of Unicode scalar values.
* An exception is `Except.error`.
* `candidates.json` is not part of the sources; the table is a parameter
  `candidatesData : List Candidate`.
* `Array.prototype.sort` is a builtin whose sequence of comparator calls is
  left to the engine by ECMA-262. It is a parameter `ArraySort`: any function
  that permutes its input; what is proved for every `ArraySort` holds on
  every engine. Two concrete engines are given, which differ in the argument
  order in which they consult the comparator.
* `XLSX.utils.json_to_sheet` is modelled at its interface (`jsonToSheet`).
-/

namespace JsonToExcel

/-! ## Values -/

/-- A JavaScript value as `JSON.parse` produces it, plus `undefined` for absent properties. -/
inductive JsVal where
  | undefined
  | null
  | bool (b : Bool)
  | num (n : Int)
  | str (s : String)
  | arr (items : List JsVal)
  | obj (props : List (String × JsVal))

/-- The only exception the pipeline can raise on parsed JSON is a `TypeError`. -/
inductive JsError where
  | typeError
  deriving DecidableEq

/-- Own properties of an object, in insertion order. -/
abbrev Obj := List (String × JsVal)

/-- ToBoolean: `undefined`, `null`, `false`, `0` and `''` are falsy. -/
def JsVal.truthy : JsVal → Bool
  | .undefined => false
  | .null => false
  | .bool b => b
  | .num n => n != 0
  | .str s => s != ""
  | .arr _ => true
  | .obj _ => true

/-- The expression `v || d`. -/
def JsVal.orElse (v d : JsVal) : JsVal :=
  if v.truthy then v else d

/-- The member access `v.k` for a name `k` that no builtin prototype defines
(`resultados`, `candidato`, `marcas`): a `TypeError` on `undefined` and `null`,
the own property of an object, `undefined` on everything else. -/
def JsVal.getMember : JsVal → String → Except JsError JsVal
  | .undefined, _ => .error .typeError
  | .null, _ => .error .typeError
  | .obj props, k => .ok ((props.lookup k).getD .undefined)
  | _, _ => .ok .undefined

/-- The properties copied by the spread `...item` in an object literal: the own
properties of an object, the indexed elements of an array, the indexed
characters of a string, nothing for the other values. -/
def JsVal.ownProps : JsVal → Obj
  | .obj props => props
  | .arr items => items.enum.map fun p => (toString p.1, p.2)
  | .str s => s.data.enum.map fun p => (toString p.1, JsVal.str (String.singleton p.2))
  | _ => []

/-- The call `v.map(f)`: defined on arrays only; on any other parsed JSON value
`v.map` is not callable and the call throws. The callback runs on the elements
in order and the first exception aborts the call. -/
def JsVal.callMap {β : Type} (v : JsVal) (f : JsVal → Except JsError β) :
    Except JsError (List β) :=
  match v with
  | .arr items => items.mapM f
  | _ => .error .typeError

/-! ## `Map` -/

/-- The method `Map.prototype.set` on a map kept as its entry list: an existing
key keeps its place and takes the new value, a new key is appended. -/
def mapSet {κ ν : Type} [BEq κ] (m : List (κ × ν)) (k : κ) (v : ν) : List (κ × ν) :=
  if m.any (fun e => e.1 == k) then m.map (fun e => if e.1 == k then (k, v) else e)
  else m ++ [(k, v)]

/-- The method `Map.prototype.get`; `none` is `undefined`. -/
def mapGet {κ ν : Type} [BEq κ] (m : List (κ × ν)) (k : κ) : Option ν :=
  m.lookup k

/-! ## The reference table -/

/-- One entry of `candidates.json`. -/
structure Candidate where
  name : String
  position : Int
  deriving DecidableEq

/-- Lines 84-86: `new Map(candidatesData.map(c => [c.name, c.position]))`. -/
def candidatesMap (candidatesData : List Candidate) : List (String × Int) :=
  (candidatesData.map fun c => (c.name, c.position)).foldl (fun m e => mapSet m e.1 e.2) []

/-- The lookup `candidatesMap.get(key)`: every key of the map is a string, so a
key that is not a string finds nothing. -/
def candidatesGet (m : List (String × Int)) : JsVal → Option Int
  | .str s => mapGet m s
  | _ => none

/-! ## Resolved records -/

/-- The value of `candidatesMap.get(..) || 'No encontrado'`. -/
inductive Posicion where
  | num (p : Int)
  | noEncontrado
  deriving DecidableEq

/-- The expression `p || 'No encontrado'` for `p` a position or `undefined`. -/
def orNoEncontrado : Option Int → Posicion
  | some p => if p != 0 then .num p else .noEncontrado
  | none => .noEncontrado

/-- The value of a `posicion` as a JavaScript value. -/
def Posicion.toJsVal : Posicion → JsVal
  | .num p => .num p
  | .noEncontrado => .str "No encontrado"

/-- What the literal `{ ...item, posicion: p }` keeps of the spread: the
properties of `item` under every name but `posicion`. A `posicion` of `item`
is overwritten by the one the literal writes. -/
def withoutPosicion (props : Obj) : Obj :=
  props.filter fun e => e.1 != "posicion"

/-- The object `{ ...item, posicion: p }`: `props` are its own properties under
the names other than `posicion`, `posicion` is its property `posicion`. -/
structure ResolvedRecord where
  props : Obj
  posicion : Posicion

/-- The member access `r.k` on a resolved record, for a name `k` that no
builtin prototype defines. -/
def ResolvedRecord.getMember (r : ResolvedRecord) (k : String) : JsVal :=
  if k == "posicion" then r.posicion.toJsVal else (r.props.lookup k).getD .undefined

/-- The member access `item.candidato` on a resolved record. -/
def ResolvedRecord.candidato (r : ResolvedRecord) : JsVal :=
  (r.props.lookup "candidato").getD .undefined

/-- The member access `item.marcas` on a resolved record. -/
def ResolvedRecord.marcas (r : ResolvedRecord) : JsVal :=
  (r.props.lookup "marcas").getD .undefined

/-- Lines 88-91, the callback of `map`. The spread is evaluated first and never
throws; `item.candidato` throws on `null`; the property `posicion` is written
last and replaces a `posicion` that came with the spread. -/
def resolveItem (m : List (String × Int)) (item : JsVal) : Except JsError ResolvedRecord := do
  let props := withoutPosicion item.ownProps
  let candidato ← item.getMember "candidato"
  pure { props := props, posicion := orNoEncontrado (candidatesGet m candidato) }

/-- The value of the callback of `map` on an object with the own properties `props`. -/
def resolveProps (m : List (String × Int)) (props : Obj) : ResolvedRecord :=
  { props := withoutPosicion props
    posicion := orNoEncontrado (candidatesGet m ((props.lookup "candidato").getD .undefined)) }

/-- Lines 94-98, the comparator handed to `sort`. -/
def comparePosicion (a b : ResolvedRecord) : Int :=
  match a.posicion with
  | .noEncontrado => 1
  | .num pa =>
    match b.posicion with
    | .noEncontrado => -1
    | .num pb => pa - pb

/-! ## `Array.prototype.sort` -/

/-- The builtin `Array.prototype.sort` on an array of resolved records. ECMA-262
leaves the sequence of comparator calls to the engine, so the embedding takes
the builtin as a parameter: any function that reorders the array it is given. -/
structure ArraySort where
  sort : (ResolvedRecord → ResolvedRecord → Int) → List ResolvedRecord → List ResolvedRecord
  perm : ∀ cmp l, (sort cmp l).Perm l

/-- One step of a straight insertion sort that consults `comparefn(swap, item)`
with `swap` the element standing before `item` (the argument order of
SpiderMonkey). `sortedRev` is the sorted part of the array, last element first;
`item` moves left over every `swap` with `comparefn(swap, item) > 0`. -/
def insertEarlierFirst {α : Type} (cmp : α → α → Int) (item : α) : List α → List α
  | [] => [item]
  | swap :: rest =>
    if cmp swap item ≤ 0 then item :: swap :: rest
    else swap :: insertEarlierFirst cmp item rest

/-- Straight insertion sort consulting `comparefn(earlier, later)`. -/
def sortEarlierFirst {α : Type} (cmp : α → α → Int) (l : List α) : List α :=
  (l.foldl (fun sortedRev item => insertEarlierFirst cmp item sortedRev) []).reverse

/-- One step of an insertion sort that consults `comparefn(item, swap)` with
`item` the element being inserted and `swap` an element standing before it
(the argument order of V8). `item` moves left over every `swap` with
`comparefn(item, swap) < 0`. -/
def insertLaterFirst {α : Type} (cmp : α → α → Int) (item : α) : List α → List α
  | [] => [item]
  | swap :: rest =>
    if cmp item swap < 0 then swap :: insertLaterFirst cmp item rest
    else item :: swap :: rest

/-- Insertion sort consulting `comparefn(later, earlier)`. -/
def sortLaterFirst {α : Type} (cmp : α → α → Int) (l : List α) : List α :=
  (l.foldl (fun sortedRev item => insertLaterFirst cmp item sortedRev) []).reverse

/-- An engine whose `sort` consults the comparator as `comparefn(earlier, later)`. -/
def earlierFirstEngine : ArraySort where
  sort := sortEarlierFirst
  perm := by
    intro cmp l
    have ins : ∀ (x : ResolvedRecord) (acc : List ResolvedRecord),
        (insertEarlierFirst cmp x acc).Perm (x :: acc) := by
      intro x acc
      induction acc with
      | nil => exact List.Perm.refl _
      | cons swap rest ih =>
        unfold insertEarlierFirst
        split
        · exact List.Perm.refl _
        · exact (List.Perm.cons swap ih).trans (List.Perm.swap x swap rest)
    have fold : ∀ (xs acc : List ResolvedRecord),
        (xs.foldl (fun sortedRev item => insertEarlierFirst cmp item sortedRev) acc).Perm
          (xs ++ acc) := by
      intro xs
      induction xs with
      | nil => intro acc; exact List.Perm.refl _
      | cons x xs ih =>
        intro acc
        simp only [List.foldl_cons]
        refine (ih _).trans ((List.Perm.append_left xs (ins x acc)).trans ?_)
        simp
    unfold sortEarlierFirst
    refine (List.reverse_perm _).trans ?_
    simpa using fold l []

/-- An engine whose `sort` consults the comparator as `comparefn(later, earlier)`. -/
def laterFirstEngine : ArraySort where
  sort := sortLaterFirst
  perm := by
    intro cmp l
    have ins : ∀ (x : ResolvedRecord) (acc : List ResolvedRecord),
        (insertLaterFirst cmp x acc).Perm (x :: acc) := by
      intro x acc
      induction acc with
      | nil => exact List.Perm.refl _
      | cons swap rest ih =>
        unfold insertLaterFirst
        split
        · exact (List.Perm.cons swap ih).trans (List.Perm.swap x swap rest)
        · exact List.Perm.refl _
    have fold : ∀ (xs acc : List ResolvedRecord),
        (xs.foldl (fun sortedRev item => insertLaterFirst cmp item sortedRev) acc).Perm
          (xs ++ acc) := by
      intro xs
      induction xs with
      | nil => intro acc; exact List.Perm.refl _
      | cons x xs ih =>
        intro acc
        simp only [List.foldl_cons]
        refine (ih _).trans ((List.Perm.append_left xs (ins x acc)).trans ?_)
        simp
    unfold sortLaterFirst
    refine (List.reverse_perm _).trans ?_
    simpa using fold l []

/-! ## `processJsonData` -/

/-- Lines 83-102. `jsonData.resultados` throws on `null`, `.map` throws unless
`resultados` is an array, the callback throws on a `null` element; the sort is
in place and the sorted array is returned. -/
def processJsonData (engine : ArraySort) (candidatesData : List Candidate) (jsonData : JsVal) :
    Except JsError (List ResolvedRecord) := do
  let m := candidatesMap candidatesData
  let resultados ← jsonData.getMember "resultados"
  let processedData ← resultados.callMap (resolveItem m)
  pure (engine.sort comparePosicion processedData)

/-! ## `generateExcel` -/

/-- The form fields (`formData`, lines 7-13). -/
structure FormData where
  territory : String
  municipio : String
  centro : String
  colonia : String
  jrv : String

/-- Lines 42-47: the map from position to marks. A record whose `posicion` is
`'No encontrado'` writes nothing; `Number(item.posicion)` of a numeric
`posicion` is that number. -/
def marksByPosition (processedData : List ResolvedRecord) : List (Int × JsVal) :=
  processedData.foldl
    (fun m item =>
      match item.posicion with
      | .noEncontrado => m
      | .num p => mapSet m p item.marcas)
    []

/-- Line 58: `Math.max(...candidatesData.map(c => c.position))`; `none` is the
`-Infinity` of an empty table. -/
def maxPosition (candidatesData : List Candidate) : Option Int :=
  (candidatesData.map fun c => c.position).foldl
    (fun acc p =>
      match acc with
      | none => some p
      | some m => some (max m p))
    none

/-- The number of integers `i` with `1 <= i <= maxPosition`, which is also
`ToLength(maxPosition)` in `Array.from({length: maxPosition}, ..)`. -/
def positionCount : Option Int → Nat
  | none => 0
  | some m => m.toNat

/-- Line 60: `marksByPosition.get(i) || '0'`. -/
def cellFor (marks : List (Int × JsVal)) (i : Nat) : JsVal :=
  ((mapGet marks (i : Int)).getD .undefined).orElse (.str "0")

/-- Lines 50-61: the object `rowData`, the four fixed properties and then one
property per `i` from 1 to `maxPosition`, assigned in the loop. -/
def rowData (candidatesData : List Candidate) (processedData : List ResolvedRecord)
    (formData : FormData) : Obj :=
  let marks := marksByPosition processedData
  let fixed : Obj :=
    [("No. Acta", .str formData.jrv),
     ("CENTRO DE VOTACION", .str formData.centro),
     ("COLONIA", .str formData.colonia),
     ("TERRITORIO", .str formData.territory)]
  (List.range' 1 (positionCount (maxPosition candidatesData))).foldl
    (fun row i => mapSet row (toString i) (cellFor marks i))
    fixed

/-- Lines 65-66: the `header` option handed to `json_to_sheet`. -/
def header (candidatesData : List Candidate) : List String :=
  ["No. Acta", "CENTRO DE VOTACION", "COLONIA", "TERRITORIO"] ++
    (List.range (positionCount (maxPosition candidatesData))).map fun i => toString (i + 1)

/-- The interface of `XLSX.utils.json_to_sheet([row], {header})` for one row:
the columns are the entries of `header` followed by the keys of `row` that
`header` lacks, and the cell of a column is the property of `row` under that
label. The sheet is the list of (label, cell) pairs in column order. -/
def jsonToSheet (row : Obj) (hdr : List String) : List (String × JsVal) :=
  (hdr ++ (row.map Prod.fst).filter (fun k => !hdr.contains k)).map
    fun k => (k, (row.lookup k).getD .undefined)

/-- The character class `[a-zA-Z0-9-]`. -/
def inClass (c : Char) : Bool :=
  (97 ≤ c.toNat && c.toNat ≤ 122) || (65 ≤ c.toNat && c.toNat ≤ 90) ||
    (48 ≤ c.toNat && c.toNat ≤ 57) || c == '-'

/-- Line 75: `.replace(/[^a-zA-Z0-9-]/g, '')` deletes every character outside the class. -/
def removeSpecial (s : List Char) : List Char :=
  s.filter inClass

/-- Line 76: the global replacement of the pattern `-+` by `'-'` as a left-to-right scan. `inRun` tells that
the previous character belongs to the current match of `-+`; a match emits one
hyphen when it starts and swallows the hyphens that extend it. -/
def replaceHyphenRuns (inRun : Bool) : List Char → List Char
  | [] => []
  | c :: cs =>
    if c = '-' then
      if inRun then replaceHyphenRuns true cs else '-' :: replaceHyphenRuns true cs
    else c :: replaceHyphenRuns false cs

/-- Lines 74-77: the file name. -/
def filename (formData : FormData) : String :=
  let joined := formData.territory ++ "-" ++ formData.municipio ++ "-" ++ formData.centro ++
    "-" ++ formData.colonia ++ "-" ++ formData.jrv
  String.mk (replaceHyphenRuns false (removeSpecial joined.data)) ++ ".xlsx"

/-- What `XLSX.writeFile(wb, filename)` is asked to write: one sheet named
`'Resultados'` with one header row and one data row. -/
structure ExcelFile where
  sheetName : String
  sheet : List (String × JsVal)
  filename : String

/-- Lines 40-81. -/
def generateExcel (candidatesData : List Candidate) (processedData : List ResolvedRecord)
    (formData : FormData) : ExcelFile :=
  { sheetName := "Resultados"
    sheet := jsonToSheet (rowData candidatesData processedData formData) (header candidatesData)
    filename := filename formData }

/-! ## `handleSubmit` -/

/-- What the `try` block of `handleSubmit` ends in: the file handed to
`XLSX.writeFile`, or the `errors.file` message set by the `catch`. -/
inductive Outcome where
  | written (file : ExcelFile)
  | fileError (message : String)

/-- Lines 128-134, from the parsed `jsonData` on: any exception of
`processJsonData` is caught and replaced by the one message. -/
def handleSubmit (engine : ArraySort) (candidatesData : List Candidate) (formData : FormData)
    (jsonData : JsVal) : Outcome :=
  match processJsonData engine candidatesData jsonData with
  | .ok processedData => .written (generateExcel candidatesData processedData formData)
  | .error _ => .fileError "Error al procesar el archivo JSON"

/-! ## Definitions that follow the words of the specification -/

/-- The file name of the specification: join the five fields with hyphens,
strip every character that is not an ASCII letter, a digit or a hyphen,
collapse every run of hyphens into one hyphen, append the extension. -/
def specFilename (territory municipio centro colonia jrv : String) : String :=
  let joined := "-".intercalate [territory, municipio, centro, colonia, jrv]
  let stripped := joined.data.filter fun c => c.isAlpha || c.isDigit || c == '-'
  String.mk (stripped.destutter fun a b => ¬(a = '-' ∧ b = '-')) ++ ".xlsx"

/-! ## Auxiliary definitions of the proofs -/

/-- The number a list of decimal digits denotes. -/
def decimalValue (cs : List Char) : Nat :=
  cs.foldl (fun acc c => acc * 10 + (c.toNat - 48)) 0

/-- The order the comparator is written for: a numeric `posicion` before a
larger or equal one, and every record before an unresolved one. -/
def precedes (a b : ResolvedRecord) : Prop :=
  match a.posicion, b.posicion with
  | .num pa, .num pb => pa ≤ pb
  | .num _, .noEncontrado => True
  | .noEncontrado, .num _ => False
  | .noEncontrado, .noEncontrado => True

/-! ## Lemmas on `Map` -/

theorem lookup_cons_eq {κ ν : Type} [BEq κ] (a : κ) (b : ν) (es : List (κ × ν)) (q : κ) :
    ((a, b) :: es).lookup q = if q == a then some b else es.lookup q := by
  cases h : (q == a) <;> simp [List.lookup, h]

theorem lookup_map_update {κ ν : Type} [BEq κ] [LawfulBEq κ] (m : List (κ × ν)) (k q : κ) (v : ν) :
    (m.map (fun e => if e.1 == k then (k, v) else e)).lookup q =
      if q == k then (m.lookup k).map (fun _ => v) else m.lookup q := by
  induction m with
  | nil => simp
  | cons e es ih =>
    obtain ⟨a, b⟩ := e
    by_cases hak : a = k
    · subst hak
      simp only [List.map_cons, beq_self_eq_true, if_true, lookup_cons_eq, ih]
      by_cases hq : q = a
      · subst hq; simp
      · have hq2 : (q == a) = false := by simpa using hq
        simp [hq2]
    · have hak2 : (a == k) = false := by simpa using hak
      simp only [List.map_cons, hak2, Bool.false_eq_true, if_false, lookup_cons_eq, ih]
      by_cases hq : q = k
      · subst hq
        have hqa : (q == a) = false := by simpa using fun h => hak h.symm
        have hqa2 : (a == q) = false := hak2
        simp [hqa]
      · have hq2 : (q == k) = false := by simpa using hq
        have hka : (k == a) = false := by simpa using fun h => hak h.symm
        simp [hq2]

theorem lookup_append_single {κ ν : Type} [BEq κ] [LawfulBEq κ] (m : List (κ × ν)) (k q : κ)
    (v : ν) (h : m.any (fun e => e.1 == k) = false) :
    (m ++ [(k, v)]).lookup q = if q == k then some v else m.lookup q := by
  induction m with
  | nil => simp [lookup_cons_eq]
  | cons e es ih =>
    obtain ⟨a, b⟩ := e
    simp only [List.any_cons, Bool.or_eq_false_iff] at h
    have hak : a ≠ k := by simpa using h.1
    simp only [List.cons_append, lookup_cons_eq, ih h.2]
    by_cases hq : q = k
    · subst hq
      have hqa : (q == a) = false := by simpa using fun h => hak h.symm
      simp [hqa]
    · have hq2 : (q == k) = false := by simpa using hq
      simp [hq2]

theorem lookup_isSome_of_any {κ ν : Type} [BEq κ] [LawfulBEq κ] (m : List (κ × ν)) (k : κ)
    (h : m.any (fun e => e.1 == k) = true) : ∃ w, m.lookup k = some w := by
  induction m with
  | nil => simp at h
  | cons e es ih =>
    obtain ⟨a, b⟩ := e
    rw [lookup_cons_eq]
    by_cases hka : a = k
    · subst hka
      exact ⟨b, by simp⟩
    · have hka2 : (k == a) = false := by simpa using fun h => hka h.symm
      simp only [hka2, Bool.false_eq_true, if_false]
      apply ih
      simpa [hka] using h

/-- A `get` after a `set` sees the value just written under that key and the old map under any other. -/
theorem mapGet_mapSet {κ ν : Type} [BEq κ] [LawfulBEq κ] (m : List (κ × ν)) (k q : κ) (v : ν) :
    mapGet (mapSet m k v) q = if q == k then some v else mapGet m q := by
  unfold mapGet mapSet
  cases h : m.any (fun e => e.1 == k)
  · simpa using lookup_append_single m k q v h
  · simp only [if_true]
    rw [lookup_map_update]
    by_cases hq : q = k
    · obtain ⟨w, hw⟩ := lookup_isSome_of_any m k h
      simp [hq, hw]
    · have hq2 : (q == k) = false := by simpa using hq
      simp [hq2]

/-- The keys after a `set`: unchanged when the key was present, the key appended otherwise. -/
theorem keys_mapSet {κ ν : Type} [BEq κ] [LawfulBEq κ] (m : List (κ × ν)) (k : κ) (v : ν) :
    ∀ q ∈ (mapSet m k v).map Prod.fst, q ∈ m.map Prod.fst ∨ q = k := by
  intro q hq
  unfold mapSet at hq
  split at hq
  · simp only [List.map_map, List.mem_map, Function.comp] at hq
    obtain ⟨e, he, rfl⟩ := hq
    by_cases hek : (e.1 == k) = true
    · right
      simp [hek]
    · left
      simp only [hek, if_false]
      exact List.mem_map_of_mem _ he
  · simp only [List.map_append, List.mem_append, List.map_cons, List.map_nil,
      List.mem_singleton] at hq
    exact hq

/-! ## Lemmas on the decimal labels `i.toString()` -/

theorem digitChar_isDigit (k : Nat) (h : k < 10) :
    (Nat.digitChar k).isDigit = true ∧ (Nat.digitChar k).toNat - 48 = k := by
  interval_cases k <;> exact ⟨by decide, by decide⟩

theorem toDigitsCore_decimal (fuel : Nat) : ∀ (n : Nat) (ds : List Char), n < fuel →
    ∃ pre, Nat.toDigitsCore 10 fuel n ds = pre ++ ds ∧ (∀ c ∈ pre, c.isDigit = true) ∧
      decimalValue pre = n := by
  induction fuel with
  | zero => intro n ds h; omega
  | succ fuel ih =>
    intro n ds h
    have hd := digitChar_isDigit (n % 10) (Nat.mod_lt _ (by decide))
    by_cases h0 : n / 10 = 0
    · refine ⟨[Nat.digitChar (n % 10)], ?_, ?_, ?_⟩
      · simp [Nat.toDigitsCore, h0]
      · intro c hc
        simp only [List.mem_singleton] at hc
        rw [hc]; exact hd.1
      · simp only [decimalValue, List.foldl_cons, List.foldl_nil, hd.2]
        omega
    · obtain ⟨pre, hpre, hdig, hval⟩ := ih (n / 10) (Nat.digitChar (n % 10) :: ds) (by omega)
      refine ⟨pre ++ [Nat.digitChar (n % 10)], ?_, ?_, ?_⟩
      · simp [Nat.toDigitsCore, h0, hpre]
      · intro c hc
        rcases List.mem_append.1 hc with hc | hc
        · exact hdig c hc
        · simp only [List.mem_singleton] at hc
          rw [hc]; exact hd.1
      · unfold decimalValue at hval ⊢
        rw [List.foldl_append, hval]
        simp only [List.foldl_cons, List.foldl_nil, hd.2]
        omega

theorem toString_nat_data (n : Nat) :
    (∀ c ∈ (toString n).data, c.isDigit = true) ∧ decimalValue (toString n).data = n := by
  obtain ⟨pre, hpre, hdig, hval⟩ := toDigitsCore_decimal (n + 1) n [] (Nat.lt_succ_self n)
  have hs : (toString n).data = pre := by
    show (Nat.toDigits 10 n) = pre
    simpa [Nat.toDigits] using hpre
  rw [hs]
  exact ⟨hdig, hval⟩

/-- Distinct positions have distinct column labels. -/
theorem toString_nat_injective (i j : Nat) (h : toString i = toString j) : i = j := by
  have hi := (toString_nat_data i).2
  have hj := (toString_nat_data j).2
  rw [h] at hi
  omega

/-- A position label is none of the four fixed labels. -/
theorem toString_nat_not_fixed (i : Nat) :
    toString i ∉ ["No. Acta", "CENTRO DE VOTACION", "COLONIA", "TERRITORIO"] := by
  intro h
  have hd := (toString_nat_data i).1
  simp only [List.mem_cons, List.mem_singleton, List.not_mem_nil, or_false] at h
  rcases h with h | h | h | h <;> rw [h] at hd
  · exact absurd (hd 'N' (by decide)) (by decide)
  · exact absurd (hd 'C' (by decide)) (by decide)
  · exact absurd (hd 'C' (by decide)) (by decide)
  · exact absurd (hd 'T' (by decide)) (by decide)

/-! ## Lemmas on `rowData` and the sheet -/

theorem lookup_loop_of_not_mem (f : Nat → JsVal) (l : List Nat) (k : String) :
    ∀ (init : Obj), (∀ i ∈ l, toString i ≠ k) →
      (l.foldl (fun row i => mapSet row (toString i) (f i)) init).lookup k = init.lookup k := by
  induction l with
  | nil => intro init _; rfl
  | cons x xs ih =>
    intro init h
    simp only [List.foldl_cons]
    rw [ih _ (fun i hi => h i (List.mem_cons_of_mem _ hi))]
    have hx : (k == toString x) = false := by
      simpa using fun e => h x (List.mem_cons_self _ _) e.symm
    have := mapGet_mapSet init (toString x) k (f x)
    simpa [mapGet, hx] using this

theorem lookup_loop_of_mem (f : Nat → JsVal) (l : List Nat) (i : Nat) :
    ∀ (init : Obj), i ∈ l →
      (l.foldl (fun row i => mapSet row (toString i) (f i)) init).lookup (toString i) =
        some (f i) := by
  induction l with
  | nil => intro init h; simp at h
  | cons x xs ih =>
    intro init h
    simp only [List.foldl_cons]
    by_cases hxs : i ∈ xs
    · exact ih _ hxs
    · have hix : i = x := by
        rcases List.mem_cons.1 h with h | h
        · exact h
        · exact absurd h hxs
      subst hix
      rw [lookup_loop_of_not_mem f xs (toString i) _
        (fun j hj e => hxs (toString_nat_injective j i e ▸ hj))]
      have := mapGet_mapSet init (toString i) (toString i) (f i)
      simpa [mapGet] using this

theorem keys_loop (f : Nat → JsVal) (l : List Nat) :
    ∀ (init : Obj), ∀ q ∈ (l.foldl (fun row i => mapSet row (toString i) (f i)) init).map Prod.fst,
      q ∈ init.map Prod.fst ∨ ∃ i ∈ l, q = toString i := by
  induction l with
  | nil => intro init q hq; exact Or.inl hq
  | cons x xs ih =>
    intro init q hq
    simp only [List.foldl_cons] at hq
    rcases ih _ q hq with h | ⟨i, hi, rfl⟩
    · rcases keys_mapSet init (toString x) (f x) q h with h | h
      · exact Or.inl h
      · exact Or.inr ⟨x, List.mem_cons_self _ _, h⟩
    · exact Or.inr ⟨i, List.mem_cons_of_mem _ hi, rfl⟩

theorem header_eq (candidatesData : List Candidate) :
    header candidatesData =
      ["No. Acta", "CENTRO DE VOTACION", "COLONIA", "TERRITORIO"] ++
        (List.range' 1 (positionCount (maxPosition candidatesData))).map
          (fun i : Nat => toString i) := by
  unfold header
  rw [List.range'_eq_map_range, List.map_map]
  congr 1
  apply List.map_congr_left
  intro i _
  simp [Nat.add_comm]

/-- The sheet of `generateExcel`: the four fixed columns with the form fields,
then one column per position `1, .., maxPosition` with the cell of line 60. -/
theorem sheet_eq (candidatesData : List Candidate) (processedData : List ResolvedRecord)
    (formData : FormData) :
    (generateExcel candidatesData processedData formData).sheet =
      [("No. Acta", JsVal.str formData.jrv),
       ("CENTRO DE VOTACION", JsVal.str formData.centro),
       ("COLONIA", JsVal.str formData.colonia),
       ("TERRITORIO", JsVal.str formData.territory)] ++
        (List.range' 1 (positionCount (maxPosition candidatesData))).map
          (fun i : Nat => (toString i, cellFor (marksByPosition processedData) i)) := by
  have hfix : ∀ k ∈ ["No. Acta", "CENTRO DE VOTACION", "COLONIA", "TERRITORIO"],
      ∀ i ∈ List.range' 1 (positionCount (maxPosition candidatesData)), toString i ≠ k := by
    intro k hk i _ e
    exact toString_nat_not_fixed i (e ▸ hk)
  have hextra : ((rowData candidatesData processedData formData).map Prod.fst).filter
      (fun k => !(header candidatesData).contains k) = [] := by
    rw [List.filter_eq_nil_iff]
    intro q hq
    have hmem : q ∈ ["No. Acta", "CENTRO DE VOTACION", "COLONIA", "TERRITORIO"] ++
        (List.range' 1 (positionCount (maxPosition candidatesData))).map
          (fun i : Nat => toString i) := by
      rcases keys_loop _ _ _ q hq with h | ⟨i, hi, rfl⟩
      · exact List.mem_append_left _ h
      · exact List.mem_append_right _ (List.mem_map_of_mem _ hi)
    rw [← header_eq] at hmem
    simpa using hmem
  show jsonToSheet (rowData candidatesData processedData formData) (header candidatesData) = _
  unfold jsonToSheet
  rw [hextra, List.append_nil, header_eq, List.map_append]
  congr 1
  · unfold rowData
    simp only [List.map_cons, List.map_nil]
    rw [lookup_loop_of_not_mem _ _ "No. Acta" _ (hfix _ (by simp)),
      lookup_loop_of_not_mem _ _ "CENTRO DE VOTACION" _ (hfix _ (by simp)),
      lookup_loop_of_not_mem _ _ "COLONIA" _ (hfix _ (by simp)),
      lookup_loop_of_not_mem _ _ "TERRITORIO" _ (hfix _ (by simp))]
    rfl
  · rw [List.map_map]
    apply List.map_congr_left
    intro i hi
    unfold rowData
    simp only [Function.comp]
    rw [lookup_loop_of_mem _ _ i _ hi]
    rfl

/-! ## Lemmas on `marksByPosition` -/

theorem marksByPosition_concat (pre : List ResolvedRecord) (r : ResolvedRecord) :
    marksByPosition (pre ++ [r]) =
      match r.posicion with
      | .noEncontrado => marksByPosition pre
      | .num p => mapSet (marksByPosition pre) p r.marcas := by
  simp only [marksByPosition, List.foldl_append, List.foldl_cons, List.foldl_nil]

theorem mapGet_marks_concat (pre : List ResolvedRecord) (r : ResolvedRecord) (q : Int) :
    mapGet (marksByPosition (pre ++ [r])) q =
      if r.posicion = .num q then some r.marcas else mapGet (marksByPosition pre) q := by
  rw [marksByPosition_concat]
  cases hp : r.posicion with
  | noEncontrado => simp
  | num p =>
    simp only [mapGet_mapSet, Posicion.num.injEq]
    by_cases hq : q = p
    · subst hq; simp
    · have hq2 : (q == p) = false := by simpa using hq
      have hq3 : ¬ p = q := fun h => hq h.symm
      simp [hq2, hq3]

/-- A position that no record has is absent from the map. -/
theorem mapGet_marks_none (data : List ResolvedRecord) (q : Int)
    (h : ∀ r ∈ data, r.posicion ≠ .num q) : mapGet (marksByPosition data) q = none := by
  induction data using List.reverseRecOn with
  | nil => rfl
  | append_singleton pre r ih =>
    rw [mapGet_marks_concat, if_neg (h r (by simp))]
    exact ih (fun x hx => h x (by simp [hx]))

/-- The map holds, under a position, the marks of the last record with that position. -/
theorem mapGet_marks_last (pre post : List ResolvedRecord) (r : ResolvedRecord) (q : Int)
    (hr : r.posicion = .num q) (hpost : ∀ x ∈ post, x.posicion ≠ .num q) :
    mapGet (marksByPosition (pre ++ r :: post)) q = some r.marcas := by
  induction post using List.reverseRecOn with
  | nil => rw [mapGet_marks_concat, if_pos hr]
  | append_singleton post x ih =>
    have hx : x.posicion ≠ .num q := hpost x (by simp)
    have e : pre ++ r :: (post ++ [x]) = (pre ++ r :: post) ++ [x] := by simp
    rw [e, mapGet_marks_concat, if_neg hx]
    exact ih (fun y hy => hpost y (by simp [hy]))

theorem exists_last_with_posicion (data : List ResolvedRecord) (q : Int)
    (h : ∃ r ∈ data, r.posicion = .num q) :
    ∃ pre r post, data = pre ++ r :: post ∧ r.posicion = .num q ∧
      ∀ x ∈ post, x.posicion ≠ .num q := by
  induction data with
  | nil => simp at h
  | cons x xs ih =>
    by_cases hxs : ∃ r ∈ xs, r.posicion = .num q
    · obtain ⟨pre, r, post, e, hr, hpost⟩ := ih hxs
      exact ⟨x :: pre, r, post, by simp [e], hr, hpost⟩
    · obtain ⟨r, hr, hq⟩ := h
      have hrx : r = x := by
        rcases List.mem_cons.1 hr with h1 | h1
        · exact h1
        · exact absurd ⟨r, h1, hq⟩ hxs
      subst hrx
      exact ⟨[], r, xs, rfl, hq, fun y hy e => hxs ⟨y, hy, e⟩⟩

theorem marks_foldl_filter (data : List ResolvedRecord) : ∀ (acc : List (Int × JsVal)),
    data.foldl
        (fun m item =>
          match item.posicion with
          | .noEncontrado => m
          | .num p => mapSet m p item.marcas) acc =
      (data.filter (fun r => r.posicion != .noEncontrado)).foldl
        (fun m item =>
          match item.posicion with
          | .noEncontrado => m
          | .num p => mapSet m p item.marcas) acc := by
  induction data with
  | nil => intro acc; rfl
  | cons x xs ih =>
    intro acc
    cases hp : x.posicion with
    | noEncontrado =>
      have hb : (x.posicion != Posicion.noEncontrado) = false := by rw [hp]; rfl
      rw [List.filter_cons]
      simp only [hb, Bool.false_eq_true, if_false, List.foldl_cons, hp]
      exact ih acc
    | num p =>
      have hb : (Posicion.num p != Posicion.noEncontrado) = true := rfl
      rw [List.filter_cons]
      simp only [hp, hb, if_true, List.foldl_cons]
      exact ih _

/-- The position cell at index `3 + i` of the sheet, for `i` from 1 to `maxPosition`. -/
theorem sheet_position_cell (candidatesData : List Candidate) (processedData : List ResolvedRecord)
    (formData : FormData) (i : Nat) (h1 : 1 ≤ i)
    (hi : i ≤ positionCount (maxPosition candidatesData)) :
    (generateExcel candidatesData processedData formData).sheet[3 + i]? =
      some (toString i, cellFor (marksByPosition processedData) i) := by
  rw [sheet_eq, List.getElem?_append_right (by simp; omega)]
  simp only [List.length_cons, List.length_nil, List.getElem?_map]
  have e : 3 + i - (0 + 1 + 1 + 1 + 1) = i - 1 := by omega
  rw [e, List.getElem?_range' 1 1 (by omega)]
  simp only [Option.map_some', Nat.one_mul]
  have e2 : 1 + (i - 1) = i := by omega
  rw [e2]

/-! ## Lemmas on `processJsonData` -/

theorem candidatesMap_concat (pre : List Candidate) (d : Candidate) :
    candidatesMap (pre ++ [d]) = mapSet (candidatesMap pre) d.name d.position := by
  simp [candidatesMap, List.foldl_append]

/-- A name that the table lacks is not a key of the map. -/
theorem candidatesMap_get_none (candidatesData : List Candidate) (s : String)
    (h : ∀ c ∈ candidatesData, c.name ≠ s) : mapGet (candidatesMap candidatesData) s = none := by
  induction candidatesData using List.reverseRecOn with
  | nil => rfl
  | append_singleton pre d ih =>
    rw [candidatesMap_concat, mapGet_mapSet]
    have hd : (s == d.name) = false := by
      simpa using fun e => h d (by simp) e.symm
    simp only [hd, Bool.false_eq_true, if_false]
    exact ih (fun c hc => h c (by simp [hc]))

/-- With unique names the map gives every name of the table its own position. -/
theorem candidatesMap_get_of_mem (candidatesData : List Candidate)
    (hnames : (candidatesData.map fun c => c.name).Nodup) (c : Candidate)
    (hc : c ∈ candidatesData) : mapGet (candidatesMap candidatesData) c.name = some c.position := by
  induction candidatesData using List.reverseRecOn with
  | nil => simp at hc
  | append_singleton pre d ih =>
    rw [candidatesMap_concat, mapGet_mapSet]
    rw [List.map_append, List.nodup_append] at hnames
    rcases List.mem_append.1 hc with hpre | hd
    · have hne : c.name ≠ d.name := by
        intro e
        exact hnames.2.2 (List.mem_map_of_mem (fun c => c.name) hpre) (by simp [e])
      have hb : (c.name == d.name) = false := by simpa using hne
      simp only [hb, Bool.false_eq_true, if_false]
      exact ih hnames.1 hpre
    · simp only [List.mem_singleton] at hd
      subst hd
      simp

/-- The spread keeps every property of the raw record under a name other than `posicion`. -/
theorem lookup_withoutPosicion (props : Obj) (k : String) (hk : k ≠ "posicion") :
    (withoutPosicion props).lookup k = props.lookup k := by
  induction props with
  | nil => rfl
  | cons e es ih =>
    obtain ⟨a, b⟩ := e
    unfold withoutPosicion at ih ⊢
    rw [List.filter_cons]
    by_cases ha : a = "posicion"
    · subst ha
      have hb : (("posicion", b).1 != "posicion") = false := by simp
      have hkb : (k == "posicion") = false := by simpa using hk
      simp only [hb, Bool.false_eq_true, if_false, lookup_cons_eq, hkb]
      exact ih
    · have hb : ((a, b).1 != "posicion") = true := by simpa using ha
      simp only [hb, if_true, lookup_cons_eq, ih]

/-- The spread leaves no property `posicion` of the raw record. -/
theorem lookup_withoutPosicion_posicion (props : Obj) :
    (withoutPosicion props).lookup "posicion" = none := by
  induction props with
  | nil => rfl
  | cons e es ih =>
    obtain ⟨a, b⟩ := e
    unfold withoutPosicion at ih ⊢
    rw [List.filter_cons]
    by_cases ha : a = "posicion"
    · subst ha
      have hb : (("posicion", b).1 != "posicion") = false := by simp
      simp only [hb, Bool.false_eq_true, if_false]
      exact ih
    · have hb : ((a, b).1 != "posicion") = true := by simpa using ha
      have hab : ("posicion" == a) = false := by simpa using fun e => ha e.symm
      simp only [hb, if_true, lookup_cons_eq, hab, Bool.false_eq_true, if_false]
      exact ih

theorem map_props_resolveProps (m : List (String × Int)) (rs : List Obj) :
    (rs.map (resolveProps m)).map (fun r => r.props) = rs.map withoutPosicion := by
  induction rs with
  | nil => rfl
  | cons props rest ih => simp only [List.map_cons, ih]; rfl

theorem resolveProps_candidato (m : List (String × Int)) (props : Obj) :
    (resolveProps m props).candidato = (props.lookup "candidato").getD .undefined := by
  show ((withoutPosicion props).lookup "candidato").getD .undefined = _
  rw [lookup_withoutPosicion props "candidato" (by decide)]

theorem resolveProps_marcas (m : List (String × Int)) (props : Obj) :
    (resolveProps m props).marcas = (props.lookup "marcas").getD .undefined := by
  show ((withoutPosicion props).lookup "marcas").getD .undefined = _
  rw [lookup_withoutPosicion props "marcas" (by decide)]

/-- The `posicion` of a resolved record is the lookup of its own `candidato`. -/
theorem resolveProps_posicion (m : List (String × Int)) (props : Obj) :
    (resolveProps m props).posicion =
      orNoEncontrado (candidatesGet m (resolveProps m props).candidato) := by
  rw [resolveProps_candidato]
  rfl

/-- A list that is a permutation of the image of `l` is the image of a permutation of `l`. -/
theorem exists_perm_of_perm_map {α β : Type} (f : α → β) : ∀ (l : List α) (out : List β),
    out.Perm (l.map f) → ∃ l2 : List α, l2.Perm l ∧ out = l2.map f := by
  intro l
  induction l with
  | nil =>
    intro out h
    exact ⟨[], List.Perm.refl _, by simpa using h⟩
  | cons a l ih =>
    intro out h
    have hmem : f a ∈ out := h.symm.subset (by simp)
    obtain ⟨s, t, rfl⟩ := List.append_of_mem hmem
    have h2 : (s ++ t).Perm (l.map f) :=
      (List.perm_middle.symm.trans (by simpa using h)).cons_inv
    obtain ⟨l2, hl2, e⟩ := ih (s ++ t) h2
    obtain ⟨l3, l4, e2, e3, e4⟩ := List.map_eq_append_iff.1 e.symm
    refine ⟨l3 ++ a :: l4, ?_, ?_⟩
    · refine List.perm_middle.trans (List.Perm.cons a ?_)
      rw [← e2]
      exact hl2
    · simp [e3, e4]

theorem mapM_resolveItem (m : List (String × Int)) (rs : List Obj) :
    (rs.map JsVal.obj).mapM (resolveItem m) = Except.ok (rs.map (resolveProps m)) := by
  induction rs with
  | nil => rfl
  | cons props rest ih =>
    rw [List.map_cons, List.mapM_cons, ih]
    rfl

/-- On a document whose `resultados` is an array of objects `processJsonData`
returns: the resolved records, reordered by the engine. -/
theorem processJsonData_ok (engine : ArraySort) (candidatesData : List Candidate) (rs : List Obj)
    (jsonData : JsVal)
    (hdoc : jsonData.getMember "resultados" = .ok (.arr (rs.map JsVal.obj))) :
    processJsonData engine candidatesData jsonData =
      .ok (engine.sort comparePosicion (rs.map (resolveProps (candidatesMap candidatesData)))) := by
  unfold processJsonData
  rw [hdoc]
  show (do
    let processedData ← (JsVal.arr (rs.map JsVal.obj)).callMap
      (resolveItem (candidatesMap candidatesData))
    pure (engine.sort comparePosicion processedData)) = _
  unfold JsVal.callMap
  simp only [mapM_resolveItem]
  rfl

/-! ## The claims on `processJsonData` and `handleSubmit` -/

/-- C1. For a reference table with unique names and positions at least 1, and a
document whose `resultados` is the list `rs` of raw records, `processJsonData`
returns a list that holds every raw record (with the properties the spread
keeps); each returned record whose `candidato` is a name of the table has that
name's configured position as `posicion`, and each returned record whose
`candidato` is no name of the table has the marker `'No encontrado'`. This
holds for every engine's `sort`. -/
theorem processJsonData_resolves_positions (engine : ArraySort)
    (candidatesData : List Candidate) (rs : List Obj) (jsonData : JsVal)
    (hdoc : jsonData.getMember "resultados" = .ok (.arr (rs.map JsVal.obj)))
    (hnames : (candidatesData.map fun c => c.name).Nodup)
    (hpos : ∀ c ∈ candidatesData, 1 ≤ c.position) :
    ∃ out, processJsonData engine candidatesData jsonData = .ok out ∧
      (out.map fun r => r.props).Perm (rs.map withoutPosicion) ∧
      ∀ r ∈ out,
        (∀ c ∈ candidatesData, r.candidato = .str c.name → r.posicion = .num c.position) ∧
        ((∀ c ∈ candidatesData, r.candidato ≠ .str c.name) → r.posicion = .noEncontrado) := by
  refine ⟨_, processJsonData_ok engine candidatesData rs jsonData hdoc, ?_, ?_⟩
  · have h := (engine.perm comparePosicion
      (rs.map (resolveProps (candidatesMap candidatesData)))).map (fun r => r.props)
    rwa [map_props_resolveProps] at h
  · intro r hr
    have hr2 := (engine.perm comparePosicion _).mem_iff.1 hr
    obtain ⟨props, _, rfl⟩ := List.mem_map.1 hr2
    have hread : (resolveProps (candidatesMap candidatesData) props).candidato =
        (props.lookup "candidato").getD .undefined := by
      show ((withoutPosicion props).lookup "candidato").getD .undefined = _
      rw [lookup_withoutPosicion props "candidato" (by decide)]
    constructor
    · intro c hc hcand
      have hcand2 : (props.lookup "candidato").getD .undefined = .str c.name := by
        rw [← hread]; exact hcand
      have hp : c.position ≠ 0 := by
        have := hpos c hc
        omega
      simp [resolveProps, hcand2, candidatesGet,
        candidatesMap_get_of_mem candidatesData hnames c hc, orNoEncontrado, hp]
    · intro hnone
      have hnone2 : ∀ c ∈ candidatesData,
          (props.lookup "candidato").getD .undefined ≠ .str c.name := by
        intro c hc
        rw [← hread]
        exact hnone c hc
      show orNoEncontrado (candidatesGet (candidatesMap candidatesData)
        ((props.lookup "candidato").getD .undefined)) = .noEncontrado
      cases hv : (props.lookup "candidato").getD .undefined with
      | str s =>
        have hs : ∀ c ∈ candidatesData, c.name ≠ s := by
          intro c hc e
          exact hnone2 c hc (by rw [hv, e])
        simp [candidatesGet, candidatesMap_get_none candidatesData s hs, orNoEncontrado]
      | _ => rfl

/-- C1 at the table and the two records of the round-trip scenario. -/
theorem processJsonData_resolves_positions_witness :
    ∃ out, processJsonData earlierFirstEngine
        [⟨"Juan Perez", 1⟩, ⟨"Maria Lopez", 2⟩]
        (.obj [("resultados", .arr [
          .obj [("candidato", .str "Juan Perez"), ("marcas", .str "15")],
          .obj [("candidato", .str "Ghost"), ("marcas", .str "3")]])]) = .ok out ∧
      (out.map fun r => r.props).Perm
        (([[("candidato", .str "Juan Perez"), ("marcas", .str "15")],
           [("candidato", .str "Ghost"), ("marcas", .str "3")]] : List Obj).map
          withoutPosicion) ∧
      ∀ r ∈ out,
        (∀ c ∈ ([⟨"Juan Perez", 1⟩, ⟨"Maria Lopez", 2⟩] : List Candidate),
          r.candidato = .str c.name → r.posicion = .num c.position) ∧
        ((∀ c ∈ ([⟨"Juan Perez", 1⟩, ⟨"Maria Lopez", 2⟩] : List Candidate),
          r.candidato ≠ .str c.name) → r.posicion = .noEncontrado) :=
  processJsonData_resolves_positions earlierFirstEngine
    [⟨"Juan Perez", 1⟩, ⟨"Maria Lopez", 2⟩]
    [[("candidato", .str "Juan Perez"), ("marcas", .str "15")],
     [("candidato", .str "Ghost"), ("marcas", .str "3")]]
    _ rfl (by decide) (by decide)

/-- C6 as stated fails: the claim leaves every passthrough field of a raw
record unchanged and only adds `posicion`. A raw record that brings its own
`posicion` (here the string `'x'`) comes back, on either engine, with
`posicion` 1: the literal of lines 88-91 has overwritten the field. -/
theorem processJsonData_overwrites_own_posicion :
    processJsonData earlierFirstEngine [⟨"Juan Perez", 1⟩]
        (.obj [("resultados", .arr [
          .obj [("candidato", .str "Juan Perez"), ("posicion", .str "x"),
            ("marcas", .num 2)]])]) =
      .ok [⟨[("candidato", .str "Juan Perez"), ("marcas", .num 2)], .num 1⟩] ∧
    processJsonData laterFirstEngine [⟨"Juan Perez", 1⟩]
        (.obj [("resultados", .arr [
          .obj [("candidato", .str "Juan Perez"), ("posicion", .str "x"),
            ("marcas", .num 2)]])]) =
      .ok [⟨[("candidato", .str "Juan Perez"), ("marcas", .num 2)], .num 1⟩] ∧
    (JsVal.obj [("candidato", .str "Juan Perez"), ("posicion", .str "x"),
        ("marcas", .num 2)]).getMember "posicion" = .ok (.str "x") ∧
    ResolvedRecord.getMember
        ⟨[("candidato", .str "Juan Perez"), ("marcas", .num 2)], .num 1⟩ "posicion" =
      .num 1 ∧
    ResolvedRecord.getMember
        ⟨[("candidato", .str "Juan Perez"), ("marcas", .num 2)], .num 1⟩ "posicion" ≠
      .str "x" := by
  refine ⟨rfl, rfl, rfl, rfl, ?_⟩
  intro h
  have h2 : JsVal.num 1 = JsVal.str "x" := h
  exact JsVal.noConfusion h2

/-- C6, amended. On a document whose `resultados` is the list `rs` of raw
records, `processJsonData` drops and adds no record: the output has the length
of `rs` and is, record by record, a permutation `rs2` of `rs` in which every
record has its property `posicion` set to a number or to `'No encontrado'`
(added, or put in the place of a `posicion` the raw record had, of which
nothing is left) and reads the same as the raw record under every other name,
`candidato` and `marcas` included. This holds for every engine's `sort`. -/
theorem processJsonData_keeps_records (engine : ArraySort) (candidatesData : List Candidate)
    (rs : List Obj) (jsonData : JsVal)
    (hdoc : jsonData.getMember "resultados" = .ok (.arr (rs.map JsVal.obj))) :
    ∃ out, processJsonData engine candidatesData jsonData = .ok out ∧
      out.length = rs.length ∧
      ∃ rs2 : List Obj, rs2.Perm rs ∧
        List.Forall₂
          (fun (r : ResolvedRecord) (props : Obj) =>
            (∀ k : String, k ≠ "posicion" →
              r.getMember k = (props.lookup k).getD .undefined) ∧
            r.candidato = (props.lookup "candidato").getD .undefined ∧
            r.marcas = (props.lookup "marcas").getD .undefined ∧
            r.props.lookup "posicion" = none ∧
            (r.getMember "posicion" = .str "No encontrado" ∨
              ∃ p : Int, r.getMember "posicion" = .num p))
          out rs2 := by
  have hperm := engine.perm comparePosicion (rs.map (resolveProps (candidatesMap candidatesData)))
  obtain ⟨rs2, hrs2, hout⟩ := exists_perm_of_perm_map
    (resolveProps (candidatesMap candidatesData)) rs _ hperm
  refine ⟨_, processJsonData_ok engine candidatesData rs jsonData hdoc, ?_, rs2, hrs2, ?_⟩
  · simpa using hperm.length_eq
  · rw [hout]
    clear hout hrs2
    induction rs2 with
    | nil => exact List.Forall₂.nil
    | cons props rest ih =>
      refine List.Forall₂.cons
        ⟨?_, ?_, ?_, lookup_withoutPosicion_posicion props, ?_⟩ ih
      · intro k hk
        have hkb : (k == "posicion") = false := by simpa using hk
        show (if k == "posicion" then _ else
          ((withoutPosicion props).lookup k).getD JsVal.undefined) = _
        rw [hkb, lookup_withoutPosicion props k hk]
        rfl
      · show ((withoutPosicion props).lookup "candidato").getD JsVal.undefined = _
        rw [lookup_withoutPosicion props "candidato" (by decide)]
      · show ((withoutPosicion props).lookup "marcas").getD JsVal.undefined = _
        rw [lookup_withoutPosicion props "marcas" (by decide)]
      · show (resolveProps (candidatesMap candidatesData) props).posicion.toJsVal = _ ∨
          ∃ p : Int, (resolveProps (candidatesMap candidatesData) props).posicion.toJsVal = _
        cases (resolveProps (candidatesMap candidatesData) props).posicion with
        | noEncontrado => exact Or.inl rfl
        | num p => exact Or.inr ⟨p, rfl⟩

/-- C6, amended, at three records: an unresolved one with a passthrough field,
one that brings its own `posicion`, and one without `candidato`. -/
theorem processJsonData_keeps_records_witness :
    ∃ out, processJsonData laterFirstEngine [⟨"Juan Perez", 1⟩]
        (.obj [("resultados", .arr [
          .obj [("candidato", .str "Ghost"), ("marcas", .num 3), ("mesa", .str "a")],
          .obj [("candidato", .str "Juan Perez"), ("posicion", .str "x"),
            ("marcas", .str "15")],
          .obj [("marcas", .null)]])]) = .ok out ∧
      out.length =
        ([[("candidato", .str "Ghost"), ("marcas", .num 3), ("mesa", .str "a")],
          [("candidato", .str "Juan Perez"), ("posicion", .str "x"), ("marcas", .str "15")],
          [("marcas", .null)]] : List Obj).length ∧
      ∃ rs2 : List Obj, rs2.Perm
          [[("candidato", .str "Ghost"), ("marcas", .num 3), ("mesa", .str "a")],
           [("candidato", .str "Juan Perez"), ("posicion", .str "x"), ("marcas", .str "15")],
           [("marcas", .null)]] ∧
        List.Forall₂
          (fun (r : ResolvedRecord) (props : Obj) =>
            (∀ k : String, k ≠ "posicion" →
              r.getMember k = (props.lookup k).getD .undefined) ∧
            r.candidato = (props.lookup "candidato").getD .undefined ∧
            r.marcas = (props.lookup "marcas").getD .undefined ∧
            r.props.lookup "posicion" = none ∧
            (r.getMember "posicion" = .str "No encontrado" ∨
              ∃ p : Int, r.getMember "posicion" = .num p))
          out rs2 :=
  processJsonData_keeps_records laterFirstEngine [⟨"Juan Perez", 1⟩]
    [[("candidato", .str "Ghost"), ("marcas", .num 3), ("mesa", .str "a")],
     [("candidato", .str "Juan Perez"), ("posicion", .str "x"), ("marcas", .str "15")],
     [("marcas", .null)]]
    _ rfl

/-- C7. A parsed document without a `resultados` array (the member access fails,
or gives `undefined` because the field is missing or the document is no object,
or gives a value that is not an array) makes `handleSubmit` end in the one
message `'Error al procesar el archivo JSON'`; the outcome is never a written file. -/
theorem handleSubmit_rejects_missing_resultados (engine : ArraySort)
    (candidatesData : List Candidate) (formData : FormData) (jsonData : JsVal)
    (h : ∀ items, jsonData.getMember "resultados" ≠ .ok (.arr items)) :
    handleSubmit engine candidatesData formData jsonData =
      .fileError "Error al procesar el archivo JSON" := by
  unfold handleSubmit
  have hp : ∃ e, processJsonData engine candidatesData jsonData = .error e := by
    unfold processJsonData
    cases hg : jsonData.getMember "resultados" with
    | error e => exact ⟨e, rfl⟩
    | ok v =>
      cases v with
      | arr items => exact absurd hg (h items)
      | _ => exact ⟨.typeError, rfl⟩
  obtain ⟨e, he⟩ := hp
  rw [he]

/-- C7 at a document whose `resultados` is an object, not an array. -/
theorem handleSubmit_rejects_missing_resultados_witness :
    handleSubmit earlierFirstEngine [⟨"Juan Perez", 1⟩] ⟨"12", "DC", "Inst", "Col", "2507"⟩
        (.obj [("resultados", .obj [("candidato", .str "Juan Perez")])]) =
      .fileError "Error al procesar el archivo JSON" :=
  handleSubmit_rejects_missing_resultados earlierFirstEngine [⟨"Juan Perez", 1⟩]
    ⟨"12", "DC", "Inst", "Col", "2507"⟩ _
    (by
      intro items hitems
      have h2 : JsVal.obj [("candidato", .str "Juan Perez")] = JsVal.arr items :=
        Except.ok.inj hitems
      exact JsVal.noConfusion h2)

/-! ## Lemmas on `maxPosition` and the cells -/

theorem foldl_max_option (l : List Int) : ∀ a : Int,
    l.foldl (fun acc p => match acc with
      | none => some p
      | some m => some (max m p)) (some a) = some (l.foldl max a) := by
  induction l with
  | nil => intro a; rfl
  | cons x xs ih => intro a; simp only [List.foldl_cons]; exact ih (max a x)

theorem foldl_max_bounds (l : List Int) : ∀ a : Int,
    a ≤ l.foldl max a ∧ (∀ x ∈ l, x ≤ l.foldl max a) ∧
      (l.foldl max a = a ∨ l.foldl max a ∈ l) := by
  induction l with
  | nil => intro a; simp
  | cons x xs ih =>
    intro a
    obtain ⟨h1, h2, h3⟩ := ih (max a x)
    simp only [List.foldl_cons, List.mem_cons]
    refine ⟨le_trans (le_max_left a x) h1, ?_, ?_⟩
    · intro y hy
      rcases hy with rfl | hy
      · exact le_trans (le_max_right a y) h1
      · exact h2 y hy
    · rcases h3 with h3 | h3
      · rw [h3]
        rcases max_choice a x with h | h
        · exact Or.inl h
        · exact Or.inr (Or.inl h)
      · exact Or.inr (Or.inr h3)

/-- The value of `maxPosition` is a position of the table and bounds every position of the table. -/
theorem maxPosition_is_max (candidatesData : List Candidate) (M : Int)
    (hM : maxPosition candidatesData = some M) :
    (∃ c ∈ candidatesData, c.position = M) ∧ ∀ c ∈ candidatesData, c.position ≤ M := by
  cases candidatesData with
  | nil => simp [maxPosition] at hM
  | cons d ds =>
    have h : maxPosition (d :: ds) = some ((ds.map fun c => c.position).foldl max d.position) := by
      simp only [maxPosition, List.map_cons, List.foldl_cons]
      exact foldl_max_option _ _
    rw [h] at hM
    have hM2 := Option.some.inj hM
    obtain ⟨h1, h2, h3⟩ := foldl_max_bounds (ds.map fun c => c.position) d.position
    rw [hM2] at h1 h2 h3
    constructor
    · rcases h3 with h3 | h3
      · exact ⟨d, by simp, h3.symm⟩
      · obtain ⟨c, hc, e⟩ := List.mem_map.1 h3
        exact ⟨c, by simp [hc], e⟩
    · intro c hc
      rcases List.mem_cons.1 hc with rfl | hc
      · exact h1
      · exact h2 _ (List.mem_map_of_mem (fun c => c.position) hc)


theorem cellFor_of_none (marks : List (Int × JsVal)) (i : Nat)
    (h : mapGet marks (i : Int) = none) : cellFor marks i = .str "0" := by
  unfold cellFor
  rw [h]
  rfl

theorem cellFor_of_some (marks : List (Int × JsVal)) (i : Nat) (v : JsVal)
    (h : mapGet marks (i : Int) = some v) :
    cellFor marks i = if v.truthy then v else .str "0" := by
  unfold cellFor
  rw [h]
  rfl

/-! ## The claims on `generateExcel` -/

/-- C3. For a reference table with maximum position `M` (at least 0) and every
list of resolved records, the empty one included, the row of `generateExcel`
has exactly `4 + M` columns, labelled `'No. Acta'`, `'CENTRO DE VOTACION'`,
`'COLONIA'`, `'TERRITORIO'`, `'1'`, .., `'M'` in this order, and the column of
every position `i` in `1..M` that no record has holds the string `'0'`. -/
theorem generateExcel_row_complete (candidatesData : List Candidate)
    (processedData : List ResolvedRecord) (formData : FormData) (M : Int)
    (hM : maxPosition candidatesData = some M) (h0 : 0 ≤ M) :
    ((generateExcel candidatesData processedData formData).sheet.length : Int) = 4 + M ∧
      (generateExcel candidatesData processedData formData).sheet.map Prod.fst =
        ["No. Acta", "CENTRO DE VOTACION", "COLONIA", "TERRITORIO"] ++
          (List.range' 1 M.toNat).map (fun i : Nat => toString i) ∧
      ∀ i : Nat, 1 ≤ i → (i : Int) ≤ M →
        (∀ r ∈ processedData, r.posicion ≠ .num i) →
        (generateExcel candidatesData processedData formData).sheet[3 + i]? =
          some (toString i, .str "0") := by
  have hn : positionCount (maxPosition candidatesData) = M.toNat := by rw [hM]; rfl
  refine ⟨?_, ?_, ?_⟩
  · rw [sheet_eq, hn]
    simp only [List.length_append, List.length_cons, List.length_nil, List.length_map,
      List.length_range']
    omega
  · rw [sheet_eq, hn]
    simp [List.map_map, Function.comp]
  · intro i h1 hi hnone
    rw [sheet_position_cell candidatesData processedData formData i h1 (by rw [hn]; omega),
      cellFor_of_none _ _ (mapGet_marks_none processedData i hnone)]

/-- C3 at the empty-results scenario: a table of maximum position 3 and no record. -/
theorem generateExcel_row_complete_witness :
    ((generateExcel [⟨"Juan Perez", 1⟩, ⟨"Maria Lopez", 2⟩, ⟨"Ana Ruiz", 3⟩] []
        ⟨"12", "DC", "Inst", "Col", "2507"⟩).sheet.length : Int) = 4 + 3 ∧
      (generateExcel [⟨"Juan Perez", 1⟩, ⟨"Maria Lopez", 2⟩, ⟨"Ana Ruiz", 3⟩] []
        ⟨"12", "DC", "Inst", "Col", "2507"⟩).sheet.map Prod.fst =
        ["No. Acta", "CENTRO DE VOTACION", "COLONIA", "TERRITORIO"] ++
          (List.range' 1 (3 : Int).toNat).map (fun i : Nat => toString i) ∧
      ∀ i : Nat, 1 ≤ i → (i : Int) ≤ 3 →
        (∀ r ∈ ([] : List ResolvedRecord), r.posicion ≠ .num i) →
        (generateExcel [⟨"Juan Perez", 1⟩, ⟨"Maria Lopez", 2⟩, ⟨"Ana Ruiz", 3⟩] []
          ⟨"12", "DC", "Inst", "Col", "2507"⟩).sheet[3 + i]? = some (toString i, .str "0") :=
  generateExcel_row_complete [⟨"Juan Perez", 1⟩, ⟨"Maria Lopez", 2⟩, ⟨"Ana Ruiz", 3⟩] []
    ⟨"12", "DC", "Inst", "Col", "2507"⟩ 3 rfl (by decide)

/-- C4 as stated fails: the claim makes column `i` the looked-up `marcas`
whatever its value. For the one record with position 1 and the number 0 as
`marcas`, the map holds the number 0 under position 1, and column `'1'` holds
the string `'0'`, which is not that value. -/
theorem generateExcel_cell_not_always_marcas :
    mapGet (marksByPosition
        [⟨[("candidato", .str "Juan Perez"), ("marcas", .num 0)], .num 1⟩]) 1 =
      some (.num 0) ∧
    (generateExcel [⟨"Juan Perez", 1⟩]
        [⟨[("candidato", .str "Juan Perez"), ("marcas", .num 0)], .num 1⟩]
        ⟨"12", "DC", "Inst", "Col", "2507"⟩).sheet[4]? = some ("1", .str "0") ∧
    (generateExcel [⟨"Juan Perez", 1⟩]
        [⟨[("candidato", .str "Juan Perez"), ("marcas", .num 0)], .num 1⟩]
        ⟨"12", "DC", "Inst", "Col", "2507"⟩).sheet[4]? ≠ some ("1", .num 0) := by
  refine ⟨rfl, rfl, ?_⟩
  intro h
  have h2 : (generateExcel [⟨"Juan Perez", 1⟩]
      [⟨[("candidato", .str "Juan Perez"), ("marcas", .num 0)], .num 1⟩]
      ⟨"12", "DC", "Inst", "Col", "2507"⟩).sheet[4]? = some ("1", .str "0") := rfl
  rw [h2] at h
  have h3 : JsVal.str "0" = JsVal.num 0 := (Prod.mk.inj (Option.some.inj h)).2
  exact JsVal.noConfusion h3

/-- C4, amended. For every list of resolved records and every `i` from 1 to
`maxPosition`: when some record has position `i`, column `i` is decided by one
such record, the one whose `marcas` the map holds under `i`, and the column is
that `marcas` when it is truthy and the string `'0'` when it is falsy; when no
record has position `i` the column is the string `'0'`. Records whose
`posicion` is `'No encontrado'` contribute to no column: dropping them leaves
the sheet unchanged. -/
theorem generateExcel_cells (candidatesData : List Candidate)
    (processedData : List ResolvedRecord) (formData : FormData) (M : Int)
    (hM : maxPosition candidatesData = some M) :
    (∀ i : Nat, 1 ≤ i → (i : Int) ≤ M →
      ((∃ r ∈ processedData, r.posicion = .num i) →
        ∃ r ∈ processedData, r.posicion = .num i ∧
          mapGet (marksByPosition processedData) (i : Int) = some r.marcas ∧
          (generateExcel candidatesData processedData formData).sheet[3 + i]? =
            some (toString i, if r.marcas.truthy then r.marcas else .str "0")) ∧
      ((∀ r ∈ processedData, r.posicion ≠ .num i) →
        (generateExcel candidatesData processedData formData).sheet[3 + i]? =
          some (toString i, .str "0"))) ∧
    (generateExcel candidatesData processedData formData).sheet =
      (generateExcel candidatesData
        (processedData.filter fun r => r.posicion != .noEncontrado) formData).sheet := by
  have hn : positionCount (maxPosition candidatesData) = M.toNat := by rw [hM]; rfl
  refine ⟨?_, ?_⟩
  · intro i h1 hi
    have hcell := sheet_position_cell candidatesData processedData formData i h1
      (by rw [hn]; omega)
    constructor
    · intro hex
      obtain ⟨pre, r, post, e, hr, hpost⟩ := exists_last_with_posicion processedData i hex
      have hget := mapGet_marks_last pre post r i hr hpost
      rw [← e] at hget
      refine ⟨r, by rw [e]; simp, hr, hget, ?_⟩
      rw [hcell, cellFor_of_some _ _ _ hget]
    · intro hnone
      rw [hcell, cellFor_of_none _ _ (mapGet_marks_none processedData i hnone)]
  · have hmarks : marksByPosition processedData =
        marksByPosition (processedData.filter fun r => r.posicion != .noEncontrado) :=
      marks_foldl_filter processedData []
    rw [sheet_eq, sheet_eq, hmarks]

/-- C4, amended, at a table of maximum position 2 and three records: a truthy
mark, an unresolved record and no record for position 2. -/
theorem generateExcel_cells_witness :
    (∀ i : Nat, 1 ≤ i → (i : Int) ≤ 2 →
      ((∃ r ∈ ([⟨[("candidato", .str "Juan Perez"), ("marcas", .str "15")], .num 1⟩,
            ⟨[("candidato", .str "Ghost"), ("marcas", .str "3")], .noEncontrado⟩] :
            List ResolvedRecord), r.posicion = .num i) →
        ∃ r ∈ ([⟨[("candidato", .str "Juan Perez"), ("marcas", .str "15")], .num 1⟩,
            ⟨[("candidato", .str "Ghost"), ("marcas", .str "3")], .noEncontrado⟩] :
            List ResolvedRecord), r.posicion = .num i ∧
          mapGet (marksByPosition
            [⟨[("candidato", .str "Juan Perez"), ("marcas", .str "15")], .num 1⟩,
             ⟨[("candidato", .str "Ghost"), ("marcas", .str "3")], .noEncontrado⟩])
            (i : Int) = some r.marcas ∧
          (generateExcel [⟨"Juan Perez", 1⟩, ⟨"Maria Lopez", 2⟩]
            [⟨[("candidato", .str "Juan Perez"), ("marcas", .str "15")], .num 1⟩,
             ⟨[("candidato", .str "Ghost"), ("marcas", .str "3")], .noEncontrado⟩]
            ⟨"12", "DC", "Inst", "Col", "2507"⟩).sheet[3 + i]? =
            some (toString i, if r.marcas.truthy then r.marcas else .str "0")) ∧
      ((∀ r ∈ ([⟨[("candidato", .str "Juan Perez"), ("marcas", .str "15")], .num 1⟩,
            ⟨[("candidato", .str "Ghost"), ("marcas", .str "3")], .noEncontrado⟩] :
            List ResolvedRecord), r.posicion ≠ .num i) →
        (generateExcel [⟨"Juan Perez", 1⟩, ⟨"Maria Lopez", 2⟩]
            [⟨[("candidato", .str "Juan Perez"), ("marcas", .str "15")], .num 1⟩,
             ⟨[("candidato", .str "Ghost"), ("marcas", .str "3")], .noEncontrado⟩]
            ⟨"12", "DC", "Inst", "Col", "2507"⟩).sheet[3 + i]? =
          some (toString i, .str "0"))) ∧
    (generateExcel [⟨"Juan Perez", 1⟩, ⟨"Maria Lopez", 2⟩]
        [⟨[("candidato", .str "Juan Perez"), ("marcas", .str "15")], .num 1⟩,
         ⟨[("candidato", .str "Ghost"), ("marcas", .str "3")], .noEncontrado⟩]
        ⟨"12", "DC", "Inst", "Col", "2507"⟩).sheet =
      (generateExcel [⟨"Juan Perez", 1⟩, ⟨"Maria Lopez", 2⟩]
        (([⟨[("candidato", .str "Juan Perez"), ("marcas", .str "15")], .num 1⟩,
           ⟨[("candidato", .str "Ghost"), ("marcas", .str "3")], .noEncontrado⟩] :
           List ResolvedRecord).filter fun r => r.posicion != .noEncontrado)
        ⟨"12", "DC", "Inst", "Col", "2507"⟩).sheet :=
  generateExcel_cells [⟨"Juan Perez", 1⟩, ⟨"Maria Lopez", 2⟩]
    [⟨[("candidato", .str "Juan Perez"), ("marcas", .str "15")], .num 1⟩,
     ⟨[("candidato", .str "Ghost"), ("marcas", .str "3")], .noEncontrado⟩]
    ⟨"12", "DC", "Inst", "Col", "2507"⟩ 2 rfl

/-- C8. For every form data and every list of resolved records the first four
cells of the row are the form fields, unchanged: `'No. Acta'` is `jrv`,
`'CENTRO DE VOTACION'` is `centro`, `'COLONIA'` is `colonia` and `'TERRITORIO'`
is `territory`, whatever the records and the table are. -/
theorem generateExcel_metadata_verbatim (candidatesData : List Candidate)
    (processedData : List ResolvedRecord) (formData : FormData) :
    (generateExcel candidatesData processedData formData).sheet.take 4 =
      [("No. Acta", .str formData.jrv),
       ("CENTRO DE VOTACION", .str formData.centro),
       ("COLONIA", .str formData.colonia),
       ("TERRITORIO", .str formData.territory)] := by
  rw [sheet_eq]
  rfl

/-- C8 at the round-trip scenario: the resolved list of the scenario and its form data. -/
theorem generateExcel_metadata_verbatim_witness :
    (generateExcel [⟨"Juan Perez", 1⟩, ⟨"Maria Lopez", 2⟩]
        [⟨[("candidato", .str "Juan Perez"), ("marcas", .str "15")], .num 1⟩,
         ⟨[("candidato", .str "Ghost"), ("marcas", .str "3")], .noEncontrado⟩]
        ⟨"12", "DC", "Inst", "Col", "2507"⟩).sheet.take 4 =
      [("No. Acta", .str "2507"),
       ("CENTRO DE VOTACION", .str "Inst"),
       ("COLONIA", .str "Col"),
       ("TERRITORIO", .str "12")] :=
  generateExcel_metadata_verbatim [⟨"Juan Perez", 1⟩, ⟨"Maria Lopez", 2⟩]
    [⟨[("candidato", .str "Juan Perez"), ("marcas", .str "15")], .num 1⟩,
     ⟨[("candidato", .str "Ghost"), ("marcas", .str "3")], .noEncontrado⟩]
    ⟨"12", "DC", "Inst", "Col", "2507"⟩

/-- C10 as stated fails: the claim keeps in column `p` the `marcas` of the last
record with position `p`. For two records of the same candidate with the marks
`'15'` and then the empty string, `processJsonData` returns both with position
1 in this order, the map holds the empty string under position 1, and column
`'1'` holds the string `'0'`: the `marcas` of neither record. -/
theorem generateExcel_last_duplicate_falsy :
    processJsonData earlierFirstEngine [⟨"Juan Perez", 1⟩]
        (.obj [("resultados", .arr [
          .obj [("candidato", .str "Juan Perez"), ("marcas", .str "15")],
          .obj [("candidato", .str "Juan Perez"), ("marcas", .str "")]])]) =
      .ok [⟨[("candidato", .str "Juan Perez"), ("marcas", .str "15")], .num 1⟩,
           ⟨[("candidato", .str "Juan Perez"), ("marcas", .str "")], .num 1⟩] ∧
    mapGet (marksByPosition
        [⟨[("candidato", .str "Juan Perez"), ("marcas", .str "15")], .num 1⟩,
         ⟨[("candidato", .str "Juan Perez"), ("marcas", .str "")], .num 1⟩]) 1 =
      some (.str "") ∧
    (generateExcel [⟨"Juan Perez", 1⟩]
        [⟨[("candidato", .str "Juan Perez"), ("marcas", .str "15")], .num 1⟩,
         ⟨[("candidato", .str "Juan Perez"), ("marcas", .str "")], .num 1⟩]
        ⟨"12", "DC", "Inst", "Col", "2507"⟩).sheet[4]? = some ("1", .str "0") ∧
    (generateExcel [⟨"Juan Perez", 1⟩]
        [⟨[("candidato", .str "Juan Perez"), ("marcas", .str "15")], .num 1⟩,
         ⟨[("candidato", .str "Juan Perez"), ("marcas", .str "")], .num 1⟩]
        ⟨"12", "DC", "Inst", "Col", "2507"⟩).sheet[4]? ≠ some ("1", .str "") := by
  refine ⟨rfl, rfl, rfl, ?_⟩
  intro h
  have h2 : (generateExcel [⟨"Juan Perez", 1⟩]
      [⟨[("candidato", .str "Juan Perez"), ("marcas", .str "15")], .num 1⟩,
       ⟨[("candidato", .str "Juan Perez"), ("marcas", .str "")], .num 1⟩]
      ⟨"12", "DC", "Inst", "Col", "2507"⟩).sheet[4]? = some ("1", .str "0") := rfl
  rw [h2] at h
  have h3 : JsVal.str "0" = JsVal.str "" := (Prod.mk.inj (Option.some.inj h)).2
  exact absurd (JsVal.str.inj h3) (by decide)

/-- C10, amended. On a document whose `resultados` is the list `rs`,
`processJsonData` returns one resolved record per raw record (record by record
a permutation `rs2` of `rs`, each with the `candidato` and `marcas` of the raw
record and with the `posicion` its `candidato` looks up), so returned records
with the same `candidato` carry the same `posicion`. In any list handed to `generateExcel`, for the last record `r`
with a position `p` between 1 and `maxPosition`, the map holds the `marcas` of
`r` under `p`, and column `p` of the row is labelled `p` and holds the `marcas`
of `r` when it is truthy and the string `'0'` when it is falsy: the earlier
records with position `p` are overwritten and show nowhere in that column. -/
theorem duplicate_positions_last_wins (engine : ArraySort) (candidatesData : List Candidate)
    (rs : List Obj) (jsonData : JsVal) (formData : FormData) (M : Int)
    (hdoc : jsonData.getMember "resultados" = .ok (.arr (rs.map JsVal.obj)))
    (hM : maxPosition candidatesData = some M) :
    (∃ out, processJsonData engine candidatesData jsonData = .ok out ∧
      (∃ rs2 : List Obj, rs2.Perm rs ∧
        List.Forall₂
          (fun (r : ResolvedRecord) (props : Obj) =>
            r.candidato = (props.lookup "candidato").getD .undefined ∧
            r.marcas = (props.lookup "marcas").getD .undefined ∧
            r.posicion =
              orNoEncontrado (candidatesGet (candidatesMap candidatesData) r.candidato))
          out rs2) ∧
      ∀ r ∈ out, ∀ x ∈ out, r.candidato = x.candidato → r.posicion = x.posicion) ∧
    ∀ (pre post : List ResolvedRecord) (r : ResolvedRecord) (p : Nat),
      r.posicion = .num p → (∀ x ∈ post, x.posicion ≠ .num p) → 1 ≤ p → (p : Int) ≤ M →
      mapGet (marksByPosition (pre ++ r :: post)) (p : Int) = some r.marcas ∧
      (generateExcel candidatesData (pre ++ r :: post) formData).sheet[3 + p]? =
        some (toString p, if r.marcas.truthy then r.marcas else .str "0") := by
  have hn : positionCount (maxPosition candidatesData) = M.toNat := by rw [hM]; rfl
  have hperm := engine.perm comparePosicion (rs.map (resolveProps (candidatesMap candidatesData)))
  obtain ⟨rs2, hrs2, hout⟩ := exists_perm_of_perm_map
    (resolveProps (candidatesMap candidatesData)) rs _ hperm
  refine ⟨⟨_, processJsonData_ok engine candidatesData rs jsonData hdoc,
    ⟨rs2, hrs2, ?_⟩, ?_⟩, ?_⟩
  · rw [hout]
    clear hout hrs2
    induction rs2 with
    | nil => exact List.Forall₂.nil
    | cons props rest ih =>
      exact List.Forall₂.cons
        ⟨resolveProps_candidato _ props, resolveProps_marcas _ props,
          resolveProps_posicion _ props⟩ ih
  · intro r hr x hx hrx
    obtain ⟨a, _, rfl⟩ := List.mem_map.1 (hperm.mem_iff.1 hr)
    obtain ⟨b, _, rfl⟩ := List.mem_map.1 (hperm.mem_iff.1 hx)
    rw [resolveProps_posicion _ a, resolveProps_posicion _ b, hrx]
  · intro pre post r p hr hpost h1 hp
    have hget := mapGet_marks_last pre post r p hr hpost
    refine ⟨hget, ?_⟩
    rw [sheet_position_cell candidatesData _ formData p h1 (by rw [hn]; omega),
      cellFor_of_some _ _ _ hget]

/-- C10, amended, at two records for the same candidate, the later with 7 marks. -/
theorem duplicate_positions_last_wins_witness :
    (∃ out, processJsonData laterFirstEngine [⟨"Juan Perez", 1⟩, ⟨"Maria Lopez", 2⟩]
        (.obj [("resultados", .arr [
          .obj [("candidato", .str "Juan Perez"), ("marcas", .str "15")],
          .obj [("candidato", .str "Juan Perez"), ("marcas", .str "7")]])]) = .ok out ∧
      (∃ rs2 : List Obj, rs2.Perm
          [[("candidato", .str "Juan Perez"), ("marcas", .str "15")],
           [("candidato", .str "Juan Perez"), ("marcas", .str "7")]] ∧
        List.Forall₂
          (fun (r : ResolvedRecord) (props : Obj) =>
            r.candidato = (props.lookup "candidato").getD .undefined ∧
            r.marcas = (props.lookup "marcas").getD .undefined ∧
            r.posicion =
              orNoEncontrado (candidatesGet
                (candidatesMap [⟨"Juan Perez", 1⟩, ⟨"Maria Lopez", 2⟩]) r.candidato))
          out rs2) ∧
      ∀ r ∈ out, ∀ x ∈ out, r.candidato = x.candidato → r.posicion = x.posicion) ∧
    ∀ (pre post : List ResolvedRecord) (r : ResolvedRecord) (p : Nat),
      r.posicion = .num p → (∀ x ∈ post, x.posicion ≠ .num p) → 1 ≤ p → (p : Int) ≤ 2 →
      mapGet (marksByPosition (pre ++ r :: post)) (p : Int) = some r.marcas ∧
      (generateExcel [⟨"Juan Perez", 1⟩, ⟨"Maria Lopez", 2⟩] (pre ++ r :: post)
          ⟨"12", "DC", "Inst", "Col", "2507"⟩).sheet[3 + p]? =
        some (toString p, if r.marcas.truthy then r.marcas else .str "0") :=
  duplicate_positions_last_wins laterFirstEngine [⟨"Juan Perez", 1⟩, ⟨"Maria Lopez", 2⟩]
    [[("candidato", .str "Juan Perez"), ("marcas", .str "15")],
     [("candidato", .str "Juan Perez"), ("marcas", .str "7")]]
    _ ⟨"12", "DC", "Inst", "Col", "2507"⟩ 2 rfl rfl

/-- The duplicate scenario evaluated: two records for position 1, the row keeps the later `'7'`. -/
theorem duplicate_scenario_row :
    (generateExcel [⟨"Juan Perez", 1⟩, ⟨"Maria Lopez", 2⟩]
        [⟨[("candidato", .str "Juan Perez"), ("marcas", .str "15")], .num 1⟩,
         ⟨[("candidato", .str "Juan Perez"), ("marcas", .str "7")], .num 1⟩]
        ⟨"12", "DC", "Inst", "Col", "2507"⟩).sheet =
      [("No. Acta", .str "2507"), ("CENTRO DE VOTACION", .str "Inst"), ("COLONIA", .str "Col"),
       ("TERRITORIO", .str "12"), ("1", .str "7"), ("2", .str "0")] :=
  rfl

/-! ## The file name -/

theorem inClass_iff (c : Char) : inClass c = true ↔
    (('a' ≤ c ∧ c ≤ 'z') ∨ ('A' ≤ c ∧ c ≤ 'Z') ∨ ('0' ≤ c ∧ c ≤ '9') ∨ c = '-') := by
  simp only [inClass, Bool.or_eq_true, Bool.and_eq_true, decide_eq_true_eq, beq_iff_eq]
  change _ ↔ ((97 ≤ c.toNat ∧ c.toNat ≤ 122) ∨ (65 ≤ c.toNat ∧ c.toNat ≤ 90) ∨
    (48 ≤ c.toNat ∧ c.toNat ≤ 57) ∨ c = '-')
  tauto

theorem inClass_eq_spec (c : Char) : inClass c = (c.isAlpha || c.isDigit || c == '-') := by
  have h : (c.isAlpha || c.isDigit || c == '-') =
      (((65 ≤ c.toNat && c.toNat ≤ 90) || (97 ≤ c.toNat && c.toNat ≤ 122)) ||
        (48 ≤ c.toNat && c.toNat ≤ 57) || c == '-') := rfl
  rw [h]
  unfold inClass
  cases (decide (97 ≤ c.toNat) && decide (c.toNat ≤ 122)) <;>
    cases (decide (65 ≤ c.toNat) && decide (c.toNat ≤ 90)) <;> rfl

theorem replaceHyphenRuns_destutter (cs : List Char) : ∀ c : Char,
    List.destutter' (fun a b => ¬(a = '-' ∧ b = '-')) c cs =
      c :: replaceHyphenRuns (decide (c = '-')) cs := by
  induction cs with
  | nil => intro c; rfl
  | cons b t ih =>
    intro c
    rw [List.destutter'_cons]
    by_cases hc : c = '-'
    · by_cases hb : b = '-'
      · rw [if_neg (by simp [hc, hb]), ih c]
        simp [replaceHyphenRuns, hc, hb]
      · rw [if_pos (by simp [hb]), ih b]
        simp [replaceHyphenRuns, hc, hb]
    · rw [if_pos (by simp [hc]), ih b]
      by_cases hb : b = '-'
      · simp [replaceHyphenRuns, hc, hb]
      · simp [replaceHyphenRuns, hc, hb]

theorem replaceHyphenRuns_eq_destutter (cs : List Char) :
    replaceHyphenRuns false cs = cs.destutter (fun a b => ¬(a = '-' ∧ b = '-')) := by
  cases cs with
  | nil => rfl
  | cons c t =>
    rw [List.destutter_cons', replaceHyphenRuns_destutter]
    by_cases hc : c = '-'
    · simp [replaceHyphenRuns, hc]
    · simp [replaceHyphenRuns, hc]

/-- C5. The file name of `generateExcel` is a function of the five form fields
alone: it equals the file name the specification derives from them (join with
hyphens, strip every character outside `[A-Za-z0-9-]`, collapse hyphen runs,
append `.xlsx`). It is a stem followed by `.xlsx`, every character of the stem
is in `[A-Za-z0-9-]`, and no two adjacent characters of the stem are both
hyphens. -/
theorem filename_sanitized (formData : FormData) :
    filename formData =
        specFilename formData.territory formData.municipio formData.centro formData.colonia
          formData.jrv ∧
      ∃ stem : List Char, filename formData = String.mk stem ++ ".xlsx" ∧
        (∀ c ∈ stem, ('a' ≤ c ∧ c ≤ 'z') ∨ ('A' ≤ c ∧ c ≤ 'Z') ∨ ('0' ≤ c ∧ c ≤ '9') ∨ c = '-') ∧
        stem.Chain' (fun a b => ¬(a = '-' ∧ b = '-')) := by
  have hfilter : ∀ l : List Char,
      removeSpecial l = l.filter (fun c => c.isAlpha || c.isDigit || c == '-') := by
    intro l
    unfold removeSpecial
    congr 1
    funext c
    exact inClass_eq_spec c
  constructor
  · unfold filename specFilename
    simp only [replaceHyphenRuns_eq_destutter, hfilter]
    rfl
  · refine ⟨replaceHyphenRuns false (removeSpecial
      (formData.territory ++ "-" ++ formData.municipio ++ "-" ++ formData.centro ++
        "-" ++ formData.colonia ++ "-" ++ formData.jrv).data), rfl, ?_, ?_⟩
    · intro c hc
      rw [replaceHyphenRuns_eq_destutter] at hc
      have hc2 := (List.destutter_sublist _ _).subset hc
      exact (inClass_iff c).1 (List.of_mem_filter hc2)
    · rw [replaceHyphenRuns_eq_destutter]
      exact List.destutter_is_chain' _ _

/-! ## The sort step -/

/-- Lines 95-96 on two unresolved records: the comparator answers 1 whichever
of the two comes first, and it answers 1, not 0, on a record and itself. -/
theorem comparePosicion_unresolved (a b : ResolvedRecord) (ha : a.posicion = .noEncontrado)
    (hb : b.posicion = .noEncontrado) :
    comparePosicion a b = 1 ∧ comparePosicion b a = 1 ∧ comparePosicion a a = 1 := by
  simp [comparePosicion, ha, hb]


theorem precedes_trans (a b c : ResolvedRecord) (hab : precedes a b) (hbc : precedes b c) :
    precedes a c := by
  unfold precedes at *
  cases ha : a.posicion <;> cases hb : b.posicion <;> cases hc : c.posicion <;>
    simp only [ha, hb, hc] at *
  omega

theorem precedes_of_compare_nonpos (a b : ResolvedRecord) (h : comparePosicion a b ≤ 0) :
    precedes a b := by
  unfold comparePosicion at h
  unfold precedes
  cases ha : a.posicion <;> cases hb : b.posicion <;> simp only [ha, hb] at * <;>
    first | trivial | omega

theorem precedes_of_compare_pos (a b : ResolvedRecord) (h : ¬ comparePosicion a b ≤ 0) :
    precedes b a := by
  unfold comparePosicion at h
  unfold precedes
  cases ha : a.posicion <;> cases hb : b.posicion <;> simp only [ha, hb] at * <;>
    first | trivial | omega

theorem precedes_of_compare_neg (a b : ResolvedRecord) (h : comparePosicion a b < 0) :
    precedes a b :=
  precedes_of_compare_nonpos a b (le_of_lt h)

theorem precedes_of_compare_nonneg (a b : ResolvedRecord) (h : ¬ comparePosicion a b < 0) :
    precedes b a := by
  unfold comparePosicion at h
  unfold precedes
  cases ha : a.posicion <;> cases hb : b.posicion <;> simp only [ha, hb] at * <;>
    first | trivial | omega

theorem insertEarlierFirst_sorted (item : ResolvedRecord) (acc : List ResolvedRecord)
    (h : acc.Pairwise (fun later earlier => precedes earlier later)) :
    (insertEarlierFirst comparePosicion item acc).Pairwise
        (fun later earlier => precedes earlier later) ∧
      ∀ y ∈ insertEarlierFirst comparePosicion item acc, y = item ∨ y ∈ acc := by
  induction acc with
  | nil => simp [insertEarlierFirst]
  | cons swap rest ih =>
    obtain ⟨hswap, hrest⟩ := List.pairwise_cons.1 h
    unfold insertEarlierFirst
    split
    · rename_i hle
      have hsi := precedes_of_compare_nonpos swap item hle
      refine ⟨List.pairwise_cons.2 ⟨?_, h⟩, ?_⟩
      · intro y hy
        rcases List.mem_cons.1 hy with rfl | hy
        · exact hsi
        · exact precedes_trans y swap item (hswap y hy) hsi
      · intro y hy
        rcases List.mem_cons.1 hy with rfl | hy
        · exact Or.inl rfl
        · exact Or.inr hy
    · rename_i hgt
      have his := precedes_of_compare_pos swap item hgt
      obtain ⟨ih1, ih2⟩ := ih hrest
      refine ⟨List.pairwise_cons.2 ⟨?_, ih1⟩, ?_⟩
      · intro y hy
        rcases ih2 y hy with rfl | hy
        · exact his
        · exact hswap y hy
      · intro y hy
        rcases List.mem_cons.1 hy with rfl | hy
        · exact Or.inr (List.mem_cons_self _ _)
        · rcases ih2 y hy with rfl | hy
          · exact Or.inl rfl
          · exact Or.inr (List.mem_cons_of_mem _ hy)

theorem insertLaterFirst_sorted (item : ResolvedRecord) (acc : List ResolvedRecord)
    (h : acc.Pairwise (fun later earlier => precedes earlier later)) :
    (insertLaterFirst comparePosicion item acc).Pairwise
        (fun later earlier => precedes earlier later) ∧
      ∀ y ∈ insertLaterFirst comparePosicion item acc, y = item ∨ y ∈ acc := by
  induction acc with
  | nil => simp [insertLaterFirst]
  | cons swap rest ih =>
    obtain ⟨hswap, hrest⟩ := List.pairwise_cons.1 h
    unfold insertLaterFirst
    split
    · rename_i hlt
      have his := precedes_of_compare_neg item swap hlt
      obtain ⟨ih1, ih2⟩ := ih hrest
      refine ⟨List.pairwise_cons.2 ⟨?_, ih1⟩, ?_⟩
      · intro y hy
        rcases ih2 y hy with rfl | hy
        · exact his
        · exact hswap y hy
      · intro y hy
        rcases List.mem_cons.1 hy with rfl | hy
        · exact Or.inr (List.mem_cons_self _ _)
        · rcases ih2 y hy with rfl | hy
          · exact Or.inl rfl
          · exact Or.inr (List.mem_cons_of_mem _ hy)
    · rename_i hge
      have hsi := precedes_of_compare_nonneg item swap hge
      refine ⟨List.pairwise_cons.2 ⟨?_, h⟩, ?_⟩
      · intro y hy
        rcases List.mem_cons.1 hy with rfl | hy
        · exact hsi
        · exact precedes_trans y swap item (hswap y hy) hsi
      · intro y hy
        rcases List.mem_cons.1 hy with rfl | hy
        · exact Or.inl rfl
        · exact Or.inr hy

theorem foldl_insert_sorted (ins : ResolvedRecord → List ResolvedRecord → List ResolvedRecord)
    (hins : ∀ item acc, acc.Pairwise (fun later earlier => precedes earlier later) →
      (ins item acc).Pairwise (fun later earlier => precedes earlier later))
    (l : List ResolvedRecord) : ∀ acc : List ResolvedRecord,
    acc.Pairwise (fun later earlier => precedes earlier later) →
    (l.foldl (fun sortedRev item => ins item sortedRev) acc).Pairwise
      (fun later earlier => precedes earlier later) := by
  induction l with
  | nil => intro acc h; exact h
  | cons x xs ih => intro acc h; exact ih _ (hins x acc h)

/-- What both engines do achieve with the comparator: in the sorted list the
numeric positions ascend and no unresolved record stands before a numeric one. -/
theorem sort_orders_by_posicion (l : List ResolvedRecord) :
    (earlierFirstEngine.sort comparePosicion l).Pairwise precedes ∧
      (laterFirstEngine.sort comparePosicion l).Pairwise precedes := by
  constructor
  · show (sortEarlierFirst comparePosicion l).Pairwise precedes
    unfold sortEarlierFirst
    rw [List.pairwise_reverse]
    exact foldl_insert_sorted _ (fun item acc h => (insertEarlierFirst_sorted item acc h).1) l []
      List.Pairwise.nil
  · show (sortLaterFirst comparePosicion l).Pairwise precedes
    unfold sortLaterFirst
    rw [List.pairwise_reverse]
    exact foldl_insert_sorted _ (fun item acc h => (insertLaterFirst_sorted item acc h).1) l []
      List.Pairwise.nil

theorem insertLaterFirst_filter_unresolved (item : ResolvedRecord) (acc : List ResolvedRecord) :
    (insertLaterFirst comparePosicion item acc).filter (fun r => r.posicion == .noEncontrado) =
      (item :: acc).filter (fun r => r.posicion == .noEncontrado) := by
  induction acc with
  | nil => rfl
  | cons swap rest ih =>
    unfold insertLaterFirst
    split
    · rename_i hlt
      have hnum : (item.posicion == Posicion.noEncontrado) = false := by
        cases hi : item.posicion with
        | noEncontrado => simp [comparePosicion, hi] at hlt
        | num p => rfl
      simp only [List.filter_cons, hnum, Bool.false_eq_true, if_false] at ih ⊢
      rw [ih]
    · rfl

/-- On the engine that consults `comparefn(later, earlier)` the unresolved
records do keep their input order. -/
theorem laterFirst_keeps_unresolved_order (l : List ResolvedRecord) :
    (laterFirstEngine.sort comparePosicion l).filter (fun r => r.posicion == .noEncontrado) =
      l.filter (fun r => r.posicion == .noEncontrado) := by
  show (sortLaterFirst comparePosicion l).filter _ = _
  have h : ∀ (xs acc : List ResolvedRecord),
      (xs.foldl (fun sortedRev item => insertLaterFirst comparePosicion item sortedRev)
        acc).filter (fun r => r.posicion == .noEncontrado) =
      (xs.filter (fun r => r.posicion == .noEncontrado)).reverse ++
        acc.filter (fun r => r.posicion == .noEncontrado) := by
    intro xs
    induction xs with
    | nil => intro acc; rfl
    | cons x xs ih =>
      intro acc
      simp only [List.foldl_cons]
      rw [ih, insertLaterFirst_filter_unresolved]
      cases hx : (x.posicion == Posicion.noEncontrado) <;>
        simp [List.filter_cons, hx]
  unfold sortLaterFirst
  rw [List.filter_reverse, h l []]
  simp

/-- C2, the failing input. The comparator answers 1 for two unresolved records
in either argument order, so it tells no engine to keep them in place. On the
document with the unknown candidates `Ghost A`, `Ghost B` in this order an
engine that consults `comparefn(earlier, later)` returns `Ghost B` before
`Ghost A`; an engine that consults `comparefn(later, earlier)` keeps the input
order. -/
theorem sort_unresolved_order_not_kept :
    comparePosicion ⟨[("candidato", .str "Ghost A"), ("marcas", .str "3")], .noEncontrado⟩
        ⟨[("candidato", .str "Ghost B"), ("marcas", .str "4")], .noEncontrado⟩ = 1 ∧
    comparePosicion ⟨[("candidato", .str "Ghost B"), ("marcas", .str "4")], .noEncontrado⟩
        ⟨[("candidato", .str "Ghost A"), ("marcas", .str "3")], .noEncontrado⟩ = 1 ∧
    processJsonData earlierFirstEngine [⟨"Juan Perez", 1⟩]
        (.obj [("resultados", .arr [
          .obj [("candidato", .str "Ghost A"), ("marcas", .str "3")],
          .obj [("candidato", .str "Ghost B"), ("marcas", .str "4")]])]) =
      .ok [⟨[("candidato", .str "Ghost B"), ("marcas", .str "4")], .noEncontrado⟩,
           ⟨[("candidato", .str "Ghost A"), ("marcas", .str "3")], .noEncontrado⟩] ∧
    processJsonData laterFirstEngine [⟨"Juan Perez", 1⟩]
        (.obj [("resultados", .arr [
          .obj [("candidato", .str "Ghost A"), ("marcas", .str "3")],
          .obj [("candidato", .str "Ghost B"), ("marcas", .str "4")]])]) =
      .ok [⟨[("candidato", .str "Ghost A"), ("marcas", .str "3")], .noEncontrado⟩,
           ⟨[("candidato", .str "Ghost B"), ("marcas", .str "4")], .noEncontrado⟩] :=
  ⟨rfl, rfl, rfl, rfl⟩

/-- C9, the failing input. With an engine that consults `comparefn(earlier,
later)` the sort step applied to the two unresolved records `Ghost A`,
`Ghost B` gives `Ghost B`, `Ghost A`, and applied to that result gives
`Ghost A`, `Ghost B` again: the second application changes the order. -/
theorem sort_twice_changes_order :
    earlierFirstEngine.sort comparePosicion
        [⟨[("candidato", .str "Ghost A")], .noEncontrado⟩,
         ⟨[("candidato", .str "Ghost B")], .noEncontrado⟩] =
      [⟨[("candidato", .str "Ghost B")], .noEncontrado⟩,
       ⟨[("candidato", .str "Ghost A")], .noEncontrado⟩] ∧
    earlierFirstEngine.sort comparePosicion
        (earlierFirstEngine.sort comparePosicion
          [⟨[("candidato", .str "Ghost A")], .noEncontrado⟩,
           ⟨[("candidato", .str "Ghost B")], .noEncontrado⟩]) =
      [⟨[("candidato", .str "Ghost A")], .noEncontrado⟩,
       ⟨[("candidato", .str "Ghost B")], .noEncontrado⟩] ∧
    earlierFirstEngine.sort comparePosicion
        (earlierFirstEngine.sort comparePosicion
          [⟨[("candidato", .str "Ghost A")], .noEncontrado⟩,
           ⟨[("candidato", .str "Ghost B")], .noEncontrado⟩]) ≠
      earlierFirstEngine.sort comparePosicion
        [⟨[("candidato", .str "Ghost A")], .noEncontrado⟩,
         ⟨[("candidato", .str "Ghost B")], .noEncontrado⟩] := by
  refine ⟨rfl, rfl, ?_⟩
  intro h
  have h2 : ([⟨[("candidato", .str "Ghost A")], .noEncontrado⟩,
      ⟨[("candidato", .str "Ghost B")], .noEncontrado⟩] : List ResolvedRecord) =
      [⟨[("candidato", .str "Ghost B")], .noEncontrado⟩,
       ⟨[("candidato", .str "Ghost A")], .noEncontrado⟩] := h
  have h3 := (List.cons.inj h2).1
  have h4 := (ResolvedRecord.mk.inj h3).1
  have h5 := (Prod.mk.inj (List.cons.inj h4).1).2
  have h6 : "Ghost A" = "Ghost B" := JsVal.str.inj h5
  exact absurd h6 (by decide)

/-! ## The scenarios of the specification -/

/-- The round-trip scenario through `handleSubmit`, on every engine: the row
and the file name of the specification. -/
theorem roundTrip_scenario (engine : ArraySort) :
    ∃ file, handleSubmit engine [⟨"Juan Perez", 1⟩, ⟨"Maria Lopez", 2⟩]
        ⟨"12", "DC", "Inst", "Col", "2507"⟩
        (.obj [("resultados", .arr [
          .obj [("candidato", .str "Juan Perez"), ("marcas", .str "15")],
          .obj [("candidato", .str "Ghost"), ("marcas", .str "3")]])]) = .written file ∧
      file.sheetName = "Resultados" ∧
      file.sheet =
        [("No. Acta", .str "2507"), ("CENTRO DE VOTACION", .str "Inst"), ("COLONIA", .str "Col"),
         ("TERRITORIO", .str "12"), ("1", .str "15"), ("2", .str "0")] ∧
      file.filename = "12-DC-Inst-Col-2507.xlsx" := by
  have hok := processJsonData_ok engine [⟨"Juan Perez", 1⟩, ⟨"Maria Lopez", 2⟩]
    [[("candidato", .str "Juan Perez"), ("marcas", .str "15")],
     [("candidato", .str "Ghost"), ("marcas", .str "3")]]
    (.obj [("resultados", .arr [
      .obj [("candidato", .str "Juan Perez"), ("marcas", .str "15")],
      .obj [("candidato", .str "Ghost"), ("marcas", .str "3")]])]) rfl
  refine ⟨_, by unfold handleSubmit; rw [hok], rfl, ?_, rfl⟩
  have hp := (engine.perm comparePosicion
    (([[("candidato", .str "Juan Perez"), ("marcas", .str "15")],
       [("candidato", .str "Ghost"), ("marcas", .str "3")]] : List Obj).map
      (resolveProps (candidatesMap [⟨"Juan Perez", 1⟩, ⟨"Maria Lopez", 2⟩])))).filter
    (fun r => r.posicion != .noEncontrado)
  have hone : (([[("candidato", .str "Juan Perez"), ("marcas", .str "15")],
       [("candidato", .str "Ghost"), ("marcas", .str "3")]] : List Obj).map
      (resolveProps (candidatesMap [⟨"Juan Perez", 1⟩, ⟨"Maria Lopez", 2⟩]))).filter
      (fun r => r.posicion != .noEncontrado) =
      [⟨[("candidato", .str "Juan Perez"), ("marcas", .str "15")], .num 1⟩] := rfl
  rw [hone] at hp
  rw [sheet_eq, show marksByPosition _ = marksByPosition (List.filter _ _) from
    marks_foldl_filter _ [], List.perm_singleton.1 hp]
  rfl

end JsonToExcel
